import Mathlib

/-!
Verification of `src/app.py` (explain_my_repo).

Python strings are modelled as `List Char`, parsed JSON values as `PyVal`,
and every function under scrutiny is translated clause by clause from the
source file.  Fallible Python operations (dynamic typing errors, missing
keys) are modelled with `Except PyExn`; `json.loads` is modelled by the
executable parser `pyLoads` below, returning `none` exactly where Python
raises `json.JSONDecodeError`.
-/

set_option maxRecDepth 4000

/-- Whitespace characters stripped by Python's `str.strip` and matched by
the regex class `\s` (ASCII range; the source deals with ASCII text). -/
def isPySpace (c : Char) : Bool :=
  c == ' ' || c == '\t' || c == '\n' || c == '\r' || c == '\x0b' || c == '\x0c'

/-- Python `s.startswith(p)`. -/
def pyStartsWith : List Char → List Char → Bool
  | _, [] => true
  | [], _ :: _ => false
  | c :: cs, p :: ps => c == p && pyStartsWith cs ps

/-- Python `s.endswith(p)`. -/
def pyEndsWith (s p : List Char) : Bool :=
  pyStartsWith s.reverse p.reverse

/-- Python slice `s[:-n]` (drop the last `n` characters; empty result when
`n` exceeds the length). -/
def pyDropRight (n : Nat) (l : List Char) : List Char :=
  (l.reverse.drop n).reverse

/-- Drop characters satisfying `p` from the end of the list. -/
def pyDropWhileEnd (p : Char → Bool) (l : List Char) : List Char :=
  (l.reverse.dropWhile p).reverse

/-- Python `s.strip()`. -/
def pyStrip (l : List Char) : List Char :=
  pyDropWhileEnd isPySpace (l.dropWhile isPySpace)

/-- Python `s.rstrip('/')` as used by `extract_repo_info`. -/
def pyRstripSlashes (l : List Char) : List Char :=
  pyDropWhileEnd (fun c => c == '/') l

/-- Python `s.lower()` (ASCII case folding; all strings compared by the
source are ASCII). -/
def pyLower (l : List Char) : List Char :=
  l.map Char.toLower

/-- Fuelled worker for `pyReplace`; the fuel is the length of the subject
string, which suffices because every step consumes at least one character. -/
def pyReplaceFuel : Nat → List Char → List Char → List Char → List Char
  | 0, s, _, _ => s
  | _ + 1, [], _, _ => []
  | f + 1, c :: cs, pat, rep =>
    if pat ≠ [] ∧ pyStartsWith (c :: cs) pat = true then
      rep ++ pyReplaceFuel f ((c :: cs).drop pat.length) pat rep
    else
      c :: pyReplaceFuel f cs pat rep

/-- Python `s.replace(pat, rep)`: replaces every non-overlapping occurrence
of `pat`, scanning left to right. -/
def pyReplace (s pat rep : List Char) : List Char :=
  pyReplaceFuel s.length s pat rep

/-- Substring test: Python `sub in s` for strings. -/
def listContainsSub : List Char → List Char → Bool
  | [], sub => sub.isEmpty
  | c :: cs, sub => pyStartsWith (c :: cs) sub || listContainsSub cs sub

/-- Python slice truncation idiom `x[:n] if len(x) > n else x`. -/
def pyTruncate (n : Nat) (l : List Char) : List Char :=
  if n < l.length then l.take n else l

/-- Lexicographic (code-point) order on Python strings, as used by
`list.sort` when comparing the string components of sort keys. -/
def pyStrLe : List Char → List Char → Bool
  | [], _ => true
  | _ :: _, [] => false
  | a :: as, b :: bs =>
    if a.toNat < b.toNat then true
    else if b.toNat < a.toNat then false
    else pyStrLe as bs

/-- Values produced by `json.loads`.  Numbers keep their source lexeme: no
claim depends on numeric magnitude, only on the (always false) comparison
of a number against a string. -/
inductive PyVal : Type where
  | str (s : List Char)
  | num (lexeme : List Char)
  | bool (b : Bool)
  | null
  | list (l : List PyVal)
  | dict (m : List (List Char × PyVal))

/-- Python `dict` assignment `m[k] = v`: replaces in place if the key is
present (keeping its original position), appends otherwise. -/
def assocSet {α : Type} : List (List Char × α) → List Char → α → List (List Char × α)
  | [], k, v => [(k, v)]
  | (k', v') :: t, k, v =>
    if k' == k then (k', v) :: t else (k', v') :: assocSet t k v

/-- Python `dict` lookup `m[k]` (as an `Option`). -/
def assocGet {α : Type} : List (List Char × α) → List Char → Option α
  | [], _ => none
  | (k', v) :: t, k => if k' == k then some v else assocGet t k

/-- Python `k in m` for dictionaries. -/
def assocHas {α : Type} (m : List (List Char × α)) (k : List Char) : Bool :=
  (assocGet m k).isSome

/-- JSON insignificant whitespace (RFC 8259 / Python `json`). -/
def isJsonWs (c : Char) : Bool :=
  c == ' ' || c == '\t' || c == '\n' || c == '\r'

def isJsonDigit (c : Char) : Bool :=
  '0' ≤ c && c ≤ '9'

/-- Opening brace character. -/
def lbrace : Char := Char.ofNat 123

/-- Closing brace character. -/
def rbrace : Char := Char.ofNat 125

def hexVal (c : Char) : Option Nat :=
  if '0' ≤ c ∧ c ≤ '9' then some (c.toNat - 48)
  else if 'a' ≤ c ∧ c ≤ 'f' then some (c.toNat - 87)
  else if 'A' ≤ c ∧ c ≤ 'F' then some (c.toNat - 55)
  else none

def hex4 : List Char → Option (Nat × List Char)
  | a :: b :: c :: d :: r =>
    match hexVal a, hexVal b, hexVal c, hexVal d with
    | some x, some y, some z, some w => some (4096 * x + 256 * y + 16 * z + w, r)
    | _, _, _, _ => none
  | _ => none

/-- JSON string body parser (the opening quote has been consumed); returns
the decoded characters and the remainder after the closing quote.  Control
characters below U+0020 are rejected, escape sequences follow RFC 8259,
and `\uXXXX` surrogate pairs are combined. -/
def jString : Nat → List Char → Option (List Char × List Char)
  | 0, _ => none
  | _ + 1, [] => none
  | f + 1, c :: rest =>
    if c == '"' then some ([], rest)
    else if c == '\\' then
      match rest with
      | [] => none
      | e :: r2 =>
        if e == '"' then (jString f r2).map (fun p => ('"' :: p.1, p.2))
        else if e == '\\' then (jString f r2).map (fun p => ('\\' :: p.1, p.2))
        else if e == '/' then (jString f r2).map (fun p => ('/' :: p.1, p.2))
        else if e == 'b' then (jString f r2).map (fun p => ('\x08' :: p.1, p.2))
        else if e == 'f' then (jString f r2).map (fun p => ('\x0c' :: p.1, p.2))
        else if e == 'n' then (jString f r2).map (fun p => ('\n' :: p.1, p.2))
        else if e == 'r' then (jString f r2).map (fun p => ('\r' :: p.1, p.2))
        else if e == 't' then (jString f r2).map (fun p => ('\t' :: p.1, p.2))
        else if e == 'u' then
          match hex4 r2 with
          | none => none
          | some (n, r3) =>
            if 0xD800 ≤ n ∧ n ≤ 0xDBFF then
              match r3 with
              | b1 :: b2 :: r4 =>
                if b1 == '\\' && b2 == 'u' then
                  match hex4 r4 with
                  | some (m, r5) =>
                    if 0xDC00 ≤ m ∧ m ≤ 0xDFFF then
                      (jString f r5).map (fun p =>
                        (Char.ofNat (0x10000 + (n - 0xD800) * 0x400 + (m - 0xDC00)) :: p.1, p.2))
                    else none
                  | none => none
                else none
              | _ => none
            else if 0xDC00 ≤ n ∧ n ≤ 0xDFFF then none
            else (jString f r3).map (fun p => (Char.ofNat n :: p.1, p.2))
        else none
    else if c.toNat < 0x20 then none
    else (jString f rest).map (fun p => (c :: p.1, p.2))

/-- Optional fraction part of a JSON number. -/
def parseFrac (s : List Char) : Option (List Char × List Char) :=
  match s with
  | c :: r =>
    if c == '.' then
      let ds := r.takeWhile isJsonDigit
      if ds.isEmpty then none else some ('.' :: ds, r.drop ds.length)
    else some ([], s)
  | [] => some ([], s)

/-- Optional exponent part of a JSON number. -/
def parseExp (s : List Char) : Option (List Char × List Char) :=
  match s with
  | c :: r =>
    if c == 'e' || c == 'E' then
      let (sgn, r1) :=
        match r with
        | d :: r' => if d == '+' || d == '-' then ([d], r') else (([] : List Char), r)
        | [] => ([], r)
      let ds := r1.takeWhile isJsonDigit
      if ds.isEmpty then none else some (c :: (sgn ++ ds), r1.drop ds.length)
    else some ([], s)
  | [] => some ([], s)

/-- JSON number lexer: `-? (0 | [1-9][0-9]*) frac? exp?`, returning the
lexeme and the remainder. -/
def parseNumber (s : List Char) : Option (List Char × List Char) :=
  let (sign, s1) :=
    match s with
    | c :: r => if c == '-' then (['-'], r) else (([] : List Char), s)
    | [] => ([], s)
  match s1 with
  | [] => none
  | c :: r =>
    if ¬ isJsonDigit c = true then none
    else
      let (ip, r1) :=
        if c == '0' then ([c], r)
        else (c :: r.takeWhile isJsonDigit, r.drop (r.takeWhile isJsonDigit).length)
      match parseFrac r1 with
      | none => none
      | some (fp, r2) =>
        match parseExp r2 with
        | none => none
        | some (ep, r3) => some (sign ++ ip ++ fp ++ ep, r3)

mutual

/-- JSON value parser (fuelled recursive descent, modelling `json.loads`'s
grammar; the Python-specific `NaN`/`Infinity` extensions never occur in
this codebase's data and are not modelled). -/
def parseVal : Nat → List Char → Option (PyVal × List Char)
  | 0, _ => none
  | f + 1, s =>
    let s1 := s.dropWhile isJsonWs
    match s1 with
    | [] => none
    | c :: rest =>
      if c == '"' then (jString f rest).map (fun p => (PyVal.str p.1, p.2))
      else if c == lbrace then
        let r1 := rest.dropWhile isJsonWs
        match r1 with
        | x :: r2 => if x == rbrace then some (PyVal.dict [], r2) else parseObjRest f r1 []
        | [] => none
      else if c == '[' then
        let r1 := rest.dropWhile isJsonWs
        match r1 with
        | x :: r2 => if x == ']' then some (PyVal.list [], r2) else parseArrayRest f r1 []
        | [] => none
      else if pyStartsWith s1 ['t', 'r', 'u', 'e'] then some (PyVal.bool true, s1.drop 4)
      else if pyStartsWith s1 ['f', 'a', 'l', 's', 'e'] then some (PyVal.bool false, s1.drop 5)
      else if pyStartsWith s1 ['n', 'u', 'l', 'l'] then some (PyVal.null, s1.drop 4)
      else if c == '-' || isJsonDigit c then
        (parseNumber s1).map (fun p => (PyVal.num p.1, p.2))
      else none

/-- Items of a JSON array after the opening bracket (first item pending);
`acc` holds previously parsed items in reverse. -/
def parseArrayRest : Nat → List Char → List PyVal → Option (PyVal × List Char)
  | 0, _, _ => none
  | f + 1, s, acc =>
    match parseVal f s with
    | none => none
    | some (v, r) =>
      let r1 := r.dropWhile isJsonWs
      match r1 with
      | x :: r2 =>
        if x == ']' then some (PyVal.list (v :: acc).reverse, r2)
        else if x == ',' then parseArrayRest f r2 (v :: acc)
        else none
      | [] => none

/-- Members of a JSON object after the opening brace (first key pending);
duplicate keys follow Python's `dict` semantics: the last value wins, at
the position of the first occurrence. -/
def parseObjRest : Nat → List Char → List (List Char × PyVal) → Option (PyVal × List Char)
  | 0, _, _ => none
  | f + 1, s, acc =>
    match s with
    | c :: r =>
      if c == '"' then
        match jString f r with
        | none => none
        | some (k, r1) =>
          let r2 := r1.dropWhile isJsonWs
          match r2 with
          | x :: r3 =>
            if x == ':' then
              match parseVal f r3 with
              | none => none
              | some (v, r4) =>
                let r5 := r4.dropWhile isJsonWs
                match r5 with
                | y :: r6 =>
                  if y == rbrace then some (PyVal.dict (assocSet acc k v), r6)
                  else if y == ',' then parseObjRest f (r6.dropWhile isJsonWs) (assocSet acc k v)
                  else none
                | [] => none
            else none
          | _ => none
      else none
    | [] => none

end

/-- Model of `json.loads`: parse one JSON value with surrounding
insignificant whitespace; `none` where Python raises `JSONDecodeError`. -/
def pyLoads (s : List Char) : Option PyVal :=
  match parseVal (4 * s.length + 16) s with
  | some (v, rest) => if (rest.dropWhile isJsonWs).isEmpty then some v else none
  | none => none

/-- Exceptions that `parse_analysis` can let escape (it catches only
`json.JSONDecodeError`). -/
inductive PyExn : Type where
  | typeError
  | attributeError
  | keyError
deriving DecidableEq

/-- Python `key in data` for a dynamically typed `data`:  key membership on
dictionaries, element equality on lists (a string key never equals a
non-string element), substring test on strings, `TypeError` otherwise. -/
def pyContains (data : PyVal) (key : List Char) : Except PyExn Bool :=
  match data with
  | .dict m => .ok (assocHas m key)
  | .list l =>
    .ok (l.any (fun v => match v with | .str s => s == key | _ => false))
  | .str s => .ok (listContainsSub s key)
  | _ => .error .typeError

/-- Python `data[key] = v` with a string key: only dictionaries support it. -/
def pySetItem (data : PyVal) (key : List Char) (v : PyVal) : Except PyExn PyVal :=
  match data with
  | .dict m => .ok (PyVal.dict (assocSet m key v))
  | _ => .error .typeError

/-- Python `data[key]` with a string key: `KeyError` on a missing
dictionary key, `TypeError` on any non-dictionary. -/
def pyGetItem (data : PyVal) (key : List Char) : Except PyExn PyVal :=
  match data with
  | .dict m =>
    match assocGet m key with
    | some v => .ok v
    | none => .error .keyError
  | _ => .error .typeError

def allStrs : List PyVal → Option (List (List Char))
  | [] => some []
  | .str s :: t => (allStrs t).map (fun l => s :: l)
  | _ :: _ => none

/-- Python `sep.join(l)`: `TypeError` unless every element is a string. -/
def pyJoin (sep : List Char) (l : List PyVal) : Except PyExn (List Char) :=
  match allStrs l with
  | some ss => .ok (List.intercalate sep ss)
  | none => .error .typeError

/-! ### The response normalizer `parse_analysis` (src/app.py lines 312-362) -/

def kTechStack : List Char := "tech_stack".data
def kProjectType : List Char := "project_type".data
def kMermaid : List Char := "architecture_mermaid".data
def kArchDesc : List Char := "architecture_description".data
def kWhatItDoes : List Char := "what_it_does".data
def kRecruiter : List Char := "recruiter_summary".data

/-- The `default_keys` list of `parse_analysis`. -/
def default_keys : List (List Char) :=
  [kTechStack, kProjectType, kMermaid, kArchDesc, kWhatItDoes, kRecruiter]

def kFence3 : List Char := "```".data
def kFenceJson : List Char := "```json".data
def kFenceMermaid : List Char := "```mermaid".data
def kGraph : List Char := "graph".data
def kGraphTD : List Char := "graph TD;\n".data
def kNotAvailLower : List Char := "not available".data
def kNotAvailable : List Char := "Not available".data

/-- Default substituted for a missing required key: `""` for the diagram
field, `"Not available"` otherwise. -/
def defaultValueFor (k : List Char) : PyVal :=
  if k == kMermaid then PyVal.str [] else PyVal.str kNotAvailable

/-- The `for key in default_keys: if key not in data: data[key] = ...`
loop of `parse_analysis`. -/
def fillDefaults : List (List Char) → PyVal → Except PyExn PyVal
  | [], data => .ok data
  | k :: ks, data =>
    match pyContains data k with
    | .error e => .error e
    | .ok b =>
      if b then fillDefaults ks data
      else
        match pySetItem data k (defaultValueFor k) with
        | .error e => .error e
        | .ok d => fillDefaults ks d

/-- The diagram-repair block of `parse_analysis`: strip embedded fence
markers, trim, prepend `graph TD;\n` when the non-empty value does not
start with `graph`, then collapse a value whose lowercasing is exactly
`not available` to the empty string.  Reading `.replace`/`.lower` off a
non-string value raises `AttributeError`. -/
def mermaidFix (data : PyVal) : Except PyExn PyVal :=
  match pyContains data kMermaid with
  | .error e => .error e
  | .ok false => .ok data
  | .ok true =>
    match pyGetItem data kMermaid with
    | .error e => .error e
    | .ok (.str s0) =>
      let s1 := pyReplace s0 kFenceMermaid []
      let s2 := pyReplace s1 kFence3 []
      let s3 := pyStrip s2
      let s4 :=
        if ¬ s3.isEmpty = true ∧ ¬ pyStartsWith s3 kGraph = true then kGraphTD ++ s3 else s3
      match pySetItem data kMermaid (PyVal.str s4) with
      | .error e => .error e
      | .ok d2 =>
        match pyGetItem d2 kMermaid with
        | .error e => .error e
        | .ok (.str t) =>
          if pyLower t == kNotAvailLower then
            match pySetItem d2 kMermaid (PyVal.str []) with
            | .error e => .error e
            | .ok d3 => .ok d3
          else .ok d2
        | .ok _ => .error .attributeError
    | .ok _ => .error .attributeError

/-- The `isinstance(data['tech_stack'], list)` join step of
`parse_analysis`. -/
def techStackFix (data : PyVal) : Except PyExn PyVal :=
  match pyGetItem data kTechStack with
  | .error e => .error e
  | .ok (.list l) =>
    match pyJoin (", ".data) l with
    | .error e => .error e
    | .ok s =>
      match pySetItem data kTechStack (PyVal.str s) with
      | .error e => .error e
      | .ok d => .ok d
  | .ok _ => .ok data

/-- Everything `parse_analysis` does after a successful `json.loads`. -/
def analysisOfData (data : PyVal) : Except PyExn PyVal :=
  match fillDefaults default_keys data with
  | .error e => .error e
  | .ok d1 =>
    match mermaidFix d1 with
    | .error e => .error e
    | .ok d2 => techStackFix d2

/-- The record returned on `json.JSONDecodeError`. -/
def errorRecord (analysisText : List Char) : PyVal :=
  PyVal.dict
    [ (kTechStack, PyVal.str "Error parsing analysis".data),
      (kProjectType, PyVal.str "Error parsing analysis".data),
      (kMermaid, PyVal.str []),
      (kArchDesc, PyVal.str "Error parsing analysis".data),
      (kWhatItDoes, PyVal.str "Error parsing analysis".data),
      (kRecruiter, PyVal.str ("Error parsing analysis: ".data ++ analysisText.take 100 ++ "...".data)) ]

/-- The code-fence stripping prologue of `parse_analysis` (applied to the
already stripped text). -/
def fenceStrip (cleaned : List Char) : List Char :=
  let c1 := if pyStartsWith cleaned kFenceJson then cleaned.drop 7 else cleaned
  let c2 := if pyStartsWith c1 kFence3 then c1.drop 3 else c1
  if pyEndsWith c2 kFence3 then pyDropRight 3 c2 else c2

/-- `parse_analysis` (src/app.py lines 312-362).  The `try` block catches
only `json.JSONDecodeError`; any other exception escapes and is modelled
by `Except.error`. -/
def parse_analysis (analysisText : List Char) : Except PyExn PyVal :=
  let cleaned := fenceStrip (pyStrip analysisText)
  match pyLoads (pyStrip cleaned) with
  | none => .ok (errorRecord analysisText)
  | some data => analysisOfData data

/-- Projection used by the theorems below: the string value of field `k`
of a successfully returned record. -/
def resultField (e : Except PyExn PyVal) (k : List Char) : Option (List Char) :=
  match e with
  | .ok (.dict m) =>
    match assocGet m k with
    | some (.str s) => some s
    | _ => none
  | _ => none

/-! ### The repository-reference parser `extract_repo_info` (lines 64-78) -/

/-- The mandatory literal of the URL pattern
`(?:https?://)?(?:www\.)?github\.com/([^/]+)/([^/\s?#]+)`. -/
def ghLit : List Char := "github.com/".data

/-- Characters ending the repository segment: the class `[^/\s?#]`. -/
def ghStop (c : Char) : Bool :=
  c == '/' || c == '?' || c == '#' || isPySpace c

/-- Attempt the regex match at one position: the two optional prefixes
`(?:https?://)?` and `(?:www\.)?` capture nothing and only move the match
start leftwards, so the captured groups are determined by the occurrence
of the mandatory literal `github.com/`; after it, group 1 is the maximal
non-empty run of non-`/` characters (backtracking inside `[^/]+` cannot
recover, since the following literal `/` can never match a character the
class excluded), then a literal `/`, then group 2 is the maximal non-empty
run of characters outside `[/\s?#]`. -/
def ghMatchAt (s : List Char) : Option (List Char × List Char) :=
  if pyStartsWith s ghLit then
    let rest := s.drop 11
    let owner := rest.takeWhile (fun c => !(c == '/'))
    let rest2 := rest.dropWhile (fun c => !(c == '/'))
    match rest2 with
    | '/' :: rest3 =>
      if owner.isEmpty then none
      else
        let repo := rest3.takeWhile (fun c => !(ghStop c))
        if repo.isEmpty then none else some (owner, repo)
    | _ => none
  else none

/-- `re.search`: the leftmost position at which the pattern matches. -/
def ghSearch : List Char → Option (List Char × List Char)
  | [] => none
  | c :: cs =>
    match ghMatchAt (c :: cs) with
    | some r => some r
    | none => ghSearch cs

/-- `extract_repo_info` (src/app.py lines 64-78): strip whitespace and
trailing slashes, search for the pattern, and remove every occurrence of
`.git` from the repository group (`str.replace` replaces all occurrences,
not only a trailing suffix). -/
def extract_repo_info (githubUrl : List Char) : Option (List Char) × Option (List Char) :=
  let u := pyRstripSlashes (pyStrip githubUrl)
  match ghSearch u with
  | some (owner, repo) => (some owner, some (pyReplace repo ".git".data []))
  | none => (none, none)

/-! ### The remote-metadata client (src/app.py lines 16-29, 81-206) -/

/-- The `IGNORE_FOLDERS` set (lines 16-20). -/
def IGNORE_FOLDERS : List (List Char) :=
  [ "node_modules".data, "venv".data, ".git".data, "dist".data, "build".data,
    "__pycache__".data, ".venv".data, "env".data, ".env".data, ".idea".data,
    ".vscode".data, "vendor".data, "target".data, ".gradle".data, "bin".data, "obj".data ]

/-- The comprehension `{f.lower() for f in IGNORE_FOLDERS}` (line 111). -/
def ignoreLower : List (List Char) :=
  IGNORE_FOLDERS.map pyLower

/-- The `DEPENDENCY_FILES` list (lines 22-29). -/
def DEPENDENCY_FILES : List (List Char) :=
  [ "requirements.txt".data, "pyproject.toml".data, "setup.py".data, "Pipfile".data,
    "package.json".data, "package-lock.json".data, "yarn.lock".data,
    "pom.xml".data, "build.gradle".data, "build.gradle.kts".data,
    "go.mod".data, "go.sum".data,
    "Cargo.toml".data, "Gemfile".data, "composer.json".data,
    "Makefile".data, "Dockerfile".data, "docker-compose.yml".data, "docker-compose.yaml".data ]

/-- One entry appended to `structure`: the `name`, `type` and `path` fields
read (with defaults) off an item of the contents listing. -/
structure RepoItem : Type where
  name : List Char
  type : List Char
  path : List Char
deriving DecidableEq

/-- Outcome of one HTTP call made inside a `try: ... except Exception`
block: a response (status, headers, parsed body), a timeout, a network
error, or any other exception (for example a JSON-decoding failure). -/
inductive HttpResult (β : Type) : Type where
  | resp (status : Nat) (headers : List (List Char × List Char)) (body : β)
  | timeout
  | netError (msg : List Char)
  | exn

/-- Outcome of the top-level repository call of `fetch_github_data`, whose
`try` block catches exactly `requests.exceptions.Timeout` and
`requests.exceptions.RequestException` (every exception the `requests`
calls inside it can raise is one of these). -/
inductive TopResult (β : Type) : Type where
  | resp (status : Nat) (headers : List (List Char × List Char)) (body : β)
  | timeout
  | netError (msg : List Char)

/-- `response.headers.get(k, dflt)`: header names compare
case-insensitively in `requests`. -/
def headersGet (hs : List (List Char × List Char)) (k dflt : List Char) : List Char :=
  match hs.find? (fun kv => pyLower kv.1 == pyLower k) with
  | some kv => kv.2
  | none => dflt

/-- Parsed body of the readme endpoint: the `content` and `encoding`
fields read (with defaults `''` and `'base64'`) off the response JSON. -/
structure ReadmeBody : Type where
  content : List Char
  encoding : List Char

/-- `fetch_readme` (lines 81-96).  `decode` abstracts the library calls
`base64.b64decode(...).decode('utf-8', errors='ignore')`; `none` models
the decoding raising, which the `except Exception` absorbs into `None`. -/
def fetch_readme (decode : List Char → Option (List Char))
    (r : HttpResult ReadmeBody) : Option (List Char) :=
  match r with
  | .resp 200 _ b =>
    if b.encoding == "base64".data && ¬ b.content.isEmpty then
      match decode b.content with
      | some d => some (pyTruncate 8000 d)
      | none => none
    else none
  | _ => none

/-- Sort key of line 120: `(0 if x['type'] == 'dir' else 1, x['name'].lower())`,
compared as Python compares tuples (lexicographically, strings by code
point). -/
def structLe (a b : RepoItem) : Bool :=
  let ka : Nat := if a.type == "dir".data then 0 else 1
  let kb : Nat := if b.type == "dir".data then 0 else 1
  (decide (ka < kb)) || ((ka == kb) && pyStrLe (pyLower a.name) (pyLower b.name))

/-- The filter of line 111: skip an item whose lowercased name is in the
lowercased ignore set. -/
def keepEntry (it : RepoItem) : Bool :=
  !(ignoreLower.contains (pyLower it.name))

/-- The loop body plus `structure.sort(...)` of `fetch_repo_structure`
applied to a successfully fetched listing (`list.sort` is a stable sort by
the key of line 120). -/
def processListing (items : List RepoItem) : List RepoItem :=
  (items.filter keepEntry).mergeSort structLe

/-- `fetch_repo_structure` (lines 99-124): non-200 responses leave the
accumulated `structure` empty, and any exception yields `[]`. -/
def fetch_repo_structure (r : HttpResult (List RepoItem)) : List RepoItem :=
  match r with
  | .resp 200 _ items => processListing items
  | .resp _ _ _ => []
  | _ => []

/-- The inner `for branch in ['main', 'master']` loop of
`fetch_dependency_files`: first 200 response wins; a non-200 response or
an exception moves on to the next branch. -/
def tryBranches (raw : List Char → List Char → HttpResult (List Char))
    (path : List Char) : Option (List Char) :=
  match raw ("main".data) path with
  | .resp 200 _ c => some c
  | _ =>
    match raw ("master".data) path with
    | .resp 200 _ c => some c
    | _ => none

/-- `fetch_dependency_files` (lines 127-143); `raw branch path` abstracts
the raw-content request for one candidate branch. -/
def fetch_dependency_files (raw : List Char → List Char → HttpResult (List Char))
    (structureList : List RepoItem) : List (List Char × List Char) :=
  structureList.foldl
    (fun deps it =>
      if it.type == "file".data && DEPENDENCY_FILES.contains it.name then
        match tryBranches raw it.path with
        | some c => assocSet deps it.name (pyTruncate 4000 c)
        | none => deps
      else deps)
    []

/-- Parsed body of the repository endpoint: the five fields
`fetch_github_data` reads off `repo_info` with `.get` defaults. -/
structure RepoBody : Type where
  description : Option (List Char)
  language : Option (List Char)
  topics : Option (List (List Char))
  stargazers_count : Option Nat
  forks_count : Option Nat

/-- The payload dictionary returned by a successful `fetch_github_data`. -/
structure RepoData : Type where
  readme : Option (List Char)
  structureList : List RepoItem
  dependencies : List (List Char × List Char)
  languages_stats : List (List Char × Nat)
  description : List Char
  language : List Char
  topics : List (List Char)
  stars : Nat
  forks : Nat

/-- The rate-limit message of lines 163-168: a token-configuration tip
when no GitHub token is configured, a wait-and-retry advice otherwise. -/
def rateLimitMessage (token : List Char) : List Char :=
  "GitHub API rate limit exceeded.\n\n".data ++
    (if token.isEmpty then
      "💡 TIP: Add a GitHub token to your .env file to get 5000 requests/hour instead of 60.\n".data ++
        "Get one at: https://github.com/settings/tokens".data
    else
      "Please wait a few minutes and try again.".data)

/-- Environment of one `fetch_github_data` call: the outcome of each
remote request it (or its helpers) may issue. -/
structure FetchEnv : Type where
  repoResp : TopResult RepoBody
  readmeResp : HttpResult ReadmeBody
  contentsResp : HttpResult (List RepoItem)
  rawFile : List Char → List Char → HttpResult (List Char)
  langResp : HttpResult (List (List Char × Nat))

/-- The `languages` block of lines 187-194: a 200 response yields the
parsed byte-count mapping, anything else (non-200, timeout, exception)
leaves the empty mapping. -/
def languagesOf (r : HttpResult (List (List Char × Nat))) : List (List Char × Nat) :=
  match r with
  | .resp 200 _ m => m
  | _ => []

/-- `fetch_github_data` (lines 146-206). -/
def fetch_github_data (owner repo token : List Char)
    (decode : List Char → Option (List Char)) (env : FetchEnv) :
    Option RepoData × Option (List Char) :=
  match env.repoResp with
  | .timeout => (none, some "Request timed out. Please try again.".data)
  | .netError m => (none, some ("Network error: ".data ++ m))
  | .resp status hs body =>
    let remaining := headersGet hs "X-RateLimit-Remaining".data "unknown".data
    if status == 404 then
      (none, some ("Repository '".data ++ owner ++ "/".data ++ repo ++
        "' not found. Make sure it exists and is public.".data))
    else if status == 403 then
      if remaining == "0".data then
        (none, some (rateLimitMessage token))
      else
        (none, some "Access forbidden. The repository might be private.".data)
    else if ¬ status == 200 then
      (none, some ("GitHub API error (Status: ".data ++ (toString status).data ++ ")".data))
    else
      let readme := fetch_readme decode env.readmeResp
      let structureList := fetch_repo_structure env.contentsResp
      let dependencies := fetch_dependency_files env.rawFile structureList
      let languages := languagesOf env.langResp
      (some { readme := readme, structureList := structureList,
              dependencies := dependencies, languages_stats := languages,
              description := body.description.getD [],
              language := body.language.getD [],
              topics := body.topics.getD [],
              stars := body.stargazers_count.getD 0,
              forks := body.forks_count.getD 0 }, none)

/-! ### Helper lemmas -/

theorem pyStartsWith_append_left (p t : List Char) : pyStartsWith (p ++ t) p = true := by
  induction p with
  | nil => simp [pyStartsWith]
  | cons c cs ih => simp [pyStartsWith, ih]

theorem pyStartsWith_of_append {s p q : List Char}
    (h : pyStartsWith s (p ++ q) = true) : pyStartsWith s p = true := by
  induction p generalizing s with
  | nil => simp [pyStartsWith]
  | cons a p' ih =>
    cases s with
    | nil => simp [pyStartsWith] at h
    | cons c cs =>
      simp [pyStartsWith] at h ⊢
      exact ⟨h.1, ih h.2⟩

theorem dropWhile_eq_self_of_head {p : Char → Bool} {l : List Char}
    (h : ∀ c, l.head? = some c → p c = false) : l.dropWhile p = l := by
  cases l with
  | nil => rfl
  | cons c t => simp [List.dropWhile_cons, h c rfl]

theorem head?_dropWhile_not (p : Char → Bool) (l : List Char) :
    ∀ c, (l.dropWhile p).head? = some c → p c = false := by
  induction l with
  | nil => simp
  | cons a t ih =>
    intro c h
    rw [List.dropWhile_cons] at h
    by_cases ha : p a = true
    · exact ih c (by simpa [ha] using h)
    · simp [ha] at h
      rw [← h]
      simpa using ha

theorem pyDropWhileEnd_eq_self {p : Char → Bool} {l : List Char}
    (h : ∀ c, l.getLast? = some c → p c = false) : pyDropWhileEnd p l = l := by
  unfold pyDropWhileEnd
  rw [dropWhile_eq_self_of_head (by simpa [List.head?_reverse] using h)]
  exact l.reverse_reverse

theorem getLast?_pyDropWhileEnd_not (p : Char → Bool) (l : List Char) :
    ∀ c, (pyDropWhileEnd p l).getLast? = some c → p c = false := by
  intro c h
  unfold pyDropWhileEnd at h
  rw [List.getLast?_reverse] at h
  exact head?_dropWhile_not p l.reverse c h

theorem pyDropWhileEnd_isPre (p : Char → Bool) (l : List Char) :
    pyDropWhileEnd p l <+: l := by
  unfold pyDropWhileEnd
  have := List.dropWhile_suffix (l := l.reverse) p
  rw [← List.reverse_prefix] at this
  simpa using this

theorem head?_pyDropWhileEnd (p : Char → Bool) (l : List Char) {c : Char}
    (h : (pyDropWhileEnd p l).head? = some c) : l.head? = some c := by
  obtain ⟨t, ht⟩ := pyDropWhileEnd_isPre p l
  cases hd : pyDropWhileEnd p l with
  | nil => rw [hd] at h; simp at h
  | cons x xs =>
    rw [hd] at h ht
    simp at h
    rw [← ht]
    simp [h]

theorem pyStrip_eq_self {l : List Char}
    (h1 : ∀ c, l.head? = some c → isPySpace c = false)
    (h2 : ∀ c, l.getLast? = some c → isPySpace c = false) : pyStrip l = l := by
  unfold pyStrip
  rw [dropWhile_eq_self_of_head h1, pyDropWhileEnd_eq_self h2]

theorem pyStrip_idem (l : List Char) : pyStrip (pyStrip l) = pyStrip l := by
  apply pyStrip_eq_self
  · intro c h
    unfold pyStrip at h
    exact head?_dropWhile_not isPySpace l c (head?_pyDropWhileEnd _ _ h)
  · intro c h
    exact getLast?_pyDropWhileEnd_not _ _ c h

theorem pyStrip_cons_space {c : Char} (l : List Char) (h : isPySpace c = true) :
    pyStrip (c :: l) = pyStrip l := by
  unfold pyStrip
  simp [List.dropWhile_cons, h]

theorem pyDropWhileEnd_concat {p : Char → Bool} {c : Char} (l : List Char) (h : p c = true) :
    pyDropWhileEnd p (l ++ [c]) = pyDropWhileEnd p l := by
  unfold pyDropWhileEnd
  simp [List.dropWhile_cons, h]

theorem pyStrip_concat_space {c : Char} (l : List Char) (h : isPySpace c = true) :
    pyStrip (l ++ [c]) = pyStrip l := by
  unfold pyStrip
  rw [List.dropWhile_append]
  by_cases he : (l.dropWhile isPySpace).isEmpty
  · rw [List.isEmpty_iff] at he
    simp [he, List.dropWhile_cons, h, pyDropWhileEnd]
  · simp only [he, if_false, Bool.false_eq_true]
    exact pyDropWhileEnd_concat _ h

theorem assocGet_set_self {α : Type} (m : List (List Char × α)) (k : List Char) (v : α) :
    assocGet (assocSet m k v) k = some v := by
  induction m with
  | nil => simp [assocSet, assocGet]
  | cons kv t ih =>
    obtain ⟨k', v'⟩ := kv
    by_cases h : (k' == k) = true
    · simp [assocSet, assocGet, h]
    · simp [assocSet, assocGet, h, ih]

theorem assocGet_set_ne {α : Type} (m : List (List Char × α)) (k k2 : List Char) (v : α)
    (h : ¬ k = k2) : assocGet (assocSet m k v) k2 = assocGet m k2 := by
  induction m with
  | nil => simp [assocSet, assocGet, h]
  | cons kv t ih =>
    obtain ⟨k', v'⟩ := kv
    by_cases h1 : (k' == k) = true
    · rw [beq_iff_eq] at h1
      subst h1
      simp [assocSet, assocGet, beq_iff_eq, h]
    · simp [assocSet, assocGet, h1, ih]

theorem assocHas_set_of {α : Type} (m : List (List Char × α)) (k k2 : List Char) (v : α)
    (h : assocHas m k2 = true) : assocHas (assocSet m k v) k2 = true := by
  by_cases hk : k = k2
  · subst hk
    simp [assocHas, assocGet_set_self]
  · simp [assocHas, assocGet_set_ne m k k2 v hk]
    simpa [assocHas] using h

theorem assocHas_set_self {α : Type} (m : List (List Char × α)) (k : List Char) (v : α) :
    assocHas (assocSet m k v) k = true := by
  simp [assocHas, assocGet_set_self]

theorem fillDefaults_dict (ks : List (List Char)) (m : List (List Char × PyVal)) :
    ∃ m', fillDefaults ks (PyVal.dict m) = .ok (PyVal.dict m') ∧
      (∀ k, assocHas m k = true → assocHas m' k = true) ∧
      (∀ k ∈ ks, assocHas m' k = true) := by
  induction ks generalizing m with
  | nil => exact ⟨m, rfl, fun _ h => h, by simp⟩
  | cons k ks ih =>
    by_cases hb : assocHas m k = true
    · obtain ⟨m', h1, h2, h3⟩ := ih m
      refine ⟨m', ?_, h2, ?_⟩
      · simp [fillDefaults, pyContains, hb, h1]
      · intro k' hk'
        rcases List.mem_cons.mp hk' with h | h
        · exact h ▸ h2 k hb
        · exact h3 k' h
    · obtain ⟨m', h1, h2, h3⟩ := ih (assocSet m k (defaultValueFor k))
      refine ⟨m', ?_, ?_, ?_⟩
      · simp only [Bool.not_eq_true] at hb
        simp [fillDefaults, pyContains, hb, pySetItem, h1]
      · intro k' hk'
        exact h2 k' (assocHas_set_of m k k' (defaultValueFor k) hk')
      · intro k' hk'
        rcases List.mem_cons.mp hk' with h | h
        · exact h ▸ h2 k (assocHas_set_self m k (defaultValueFor k))
        · exact h3 k' h

theorem fillDefaults_ok_nondict (ks : List (List Char)) (data d : PyVal)
    (hv : ∀ m, ¬ data = PyVal.dict m) (h : fillDefaults ks data = .ok d) :
    d = data ∧ ∀ k ∈ ks, pyContains data k = .ok true := by
  induction ks with
  | nil =>
    simp [fillDefaults] at h
    exact ⟨h.symm, by simp⟩
  | cons k ks ih =>
    cases data with
    | dict m => exact absurd rfl (hv m)
    | str s =>
      by_cases hb : listContainsSub s k = true
      · simp [fillDefaults, pyContains, hb] at h
        obtain ⟨h1, h2⟩ := ih h
        refine ⟨h1, ?_⟩
        intro k' hk'
        rcases List.mem_cons.mp hk' with he | he
        · simp [pyContains, he ▸ hb]
        · exact h2 k' he
      · simp only [Bool.not_eq_true] at hb
        simp [fillDefaults, pyContains, hb, pySetItem] at h
    | list l =>
      by_cases hb : (l.any fun v => match v with | .str s => s == k | _ => false) = true
      · simp [fillDefaults, pyContains, hb] at h
        obtain ⟨h1, h2⟩ := ih h
        refine ⟨h1, ?_⟩
        intro k' hk'
        rcases List.mem_cons.mp hk' with he | he
        · simp [pyContains, he ▸ hb]
        · exact h2 k' he
      · simp only [Bool.not_eq_true] at hb
        simp [fillDefaults, pyContains, hb, pySetItem] at h
    | num n => simp [fillDefaults, pyContains] at h
    | bool b => simp [fillDefaults, pyContains] at h
    | null => simp [fillDefaults, pyContains] at h

theorem fillDefaults_ok_contains {ks : List (List Char)} {data d : PyVal}
    (h : fillDefaults ks data = .ok d) : ∀ k ∈ ks, pyContains d k = .ok true := by
  cases data with
  | dict m =>
    obtain ⟨m', h1, _, h3⟩ := fillDefaults_dict ks m
    rw [h1] at h
    injection h with h
    intro k hk
    rw [← h]
    simp [pyContains, h3 k hk]
  | str s =>
    obtain ⟨h1, h2⟩ := fillDefaults_ok_nondict ks _ d (by intro m hm; cases hm) h
    exact h1 ▸ h2
  | list l =>
    obtain ⟨h1, h2⟩ := fillDefaults_ok_nondict ks _ d (by intro m hm; cases hm) h
    exact h1 ▸ h2
  | num n =>
    obtain ⟨h1, h2⟩ := fillDefaults_ok_nondict ks _ d (by intro m hm; cases hm) h
    exact h1 ▸ h2
  | bool b =>
    obtain ⟨h1, h2⟩ := fillDefaults_ok_nondict ks _ d (by intro m hm; cases hm) h
    exact h1 ▸ h2
  | null =>
    obtain ⟨h1, h2⟩ := fillDefaults_ok_nondict ks _ d (by intro m hm; cases hm) h
    exact h1 ▸ h2

theorem assocSet_assocSet {α : Type} (m : List (List Char × α)) (k : List Char) (v w : α) :
    assocSet (assocSet m k v) k w = assocSet m k w := by
  induction m with
  | nil => simp [assocSet]
  | cons kv t ih =>
    obtain ⟨k', v'⟩ := kv
    by_cases h : (k' == k) = true
    · simp [assocSet, h]
    · simp [assocSet, h, ih]

/-- The value stored back into `architecture_mermaid` by the diagram-repair
block, as a function of the string it found there. -/
def mermaidTransform (s0 : List Char) : List Char :=
  let s3 := pyStrip (pyReplace (pyReplace s0 kFenceMermaid []) kFence3 [])
  let s4 := if ¬ s3.isEmpty = true ∧ ¬ pyStartsWith s3 kGraph = true then kGraphTD ++ s3 else s3
  if pyLower s4 == kNotAvailLower then [] else s4

theorem mermaidFix_dict_eq (m1 : List (List Char × PyVal)) (s0 : List Char)
    (hgi : assocGet m1 kMermaid = some (PyVal.str s0)) :
    mermaidFix (PyVal.dict m1) =
      .ok (PyVal.dict (assocSet m1 kMermaid (PyVal.str (mermaidTransform s0)))) := by
  simp only [mermaidFix, mermaidTransform, pyContains, pyGetItem, pySetItem, assocHas,
    hgi, assocGet_set_self, Option.isSome_some]
  split_ifs <;> simp [assocSet_assocSet]

theorem mermaidTransform_inv (s0 : List Char) :
    mermaidTransform s0 = [] ∨ pyStartsWith (mermaidTransform s0) kGraph = true := by
  have hTD : kGraphTD = kGraph ++ " TD;\n".data := by decide
  simp only [mermaidTransform]
  split_ifs with h1 h2 h3
  · exact Or.inl rfl
  · right
    rw [hTD, List.append_assoc]
    exact pyStartsWith_append_left _ _
  · exact Or.inl rfl
  · rw [not_and_or, not_not] at h1
    rcases h1 with h1 | h1
    · exact Or.inl (List.isEmpty_iff.mp h1)
    · exact Or.inr (by revert h1; cases pyStartsWith (pyStrip (pyReplace (pyReplace s0 kFenceMermaid []) kFence3 [])) kGraph <;> simp)

theorem mermaidFix_dict_nonstr (m1 : List (List Char × PyVal)) (v0 : PyVal)
    (hgi : assocGet m1 kMermaid = some v0) (hns : ∀ t, ¬ v0 = PyVal.str t) :
    mermaidFix (PyVal.dict m1) = .error .attributeError := by
  have hc : pyContains (PyVal.dict m1) kMermaid = Except.ok true := by
    simp [pyContains, assocHas, hgi]
  have hg : pyGetItem (PyVal.dict m1) kMermaid = .ok v0 := by
    simp [pyGetItem, hgi]
  cases v0 with
  | str t => exact absurd rfl (hns t)
  | num n => simp [mermaidFix, hc, hg]
  | bool b => simp [mermaidFix, hc, hg]
  | null => simp [mermaidFix, hc, hg]
  | list l => simp [mermaidFix, hc, hg]
  | dict m => simp [mermaidFix, hc, hg]

theorem techStackFix_ok_dict (m2 : List (List Char × PyVal)) (r : PyVal)
    (h : techStackFix (PyVal.dict m2) = .ok r) :
    ∃ m3, r = PyVal.dict m3 ∧ assocGet m3 kMermaid = assocGet m2 kMermaid := by
  have hne : ¬ kTechStack = kMermaid := by decide
  cases hgt : assocGet m2 kTechStack with
  | none => simp [techStackFix, pyGetItem, hgt] at h
  | some v =>
    cases v with
    | list l =>
      cases hj : pyJoin (", ".data) l with
      | error e => simp [techStackFix, pyGetItem, hgt, hj] at h
      | ok js =>
        simp only [techStackFix, pyGetItem, hgt, hj, pySetItem] at h
        injection h with h
        exact ⟨_, h.symm, by rw [assocGet_set_ne _ _ _ _ hne]⟩
    | str t =>
      simp only [techStackFix, pyGetItem, hgt] at h
      injection h with h
      exact ⟨m2, h.symm, rfl⟩
    | num n =>
      simp only [techStackFix, pyGetItem, hgt] at h
      injection h with h
      exact ⟨m2, h.symm, rfl⟩
    | bool b =>
      simp only [techStackFix, pyGetItem, hgt] at h
      injection h with h
      exact ⟨m2, h.symm, rfl⟩
    | null =>
      simp only [techStackFix, pyGetItem, hgt] at h
      injection h with h
      exact ⟨m2, h.symm, rfl⟩
    | dict md =>
      simp only [techStackFix, pyGetItem, hgt] at h
      injection h with h
      exact ⟨m2, h.symm, rfl⟩

theorem parse_ok_mermaid {s : List Char} {r : PyVal} (h : parse_analysis s = .ok r) :
    ∃ m v, r = PyVal.dict m ∧ assocGet m kMermaid = some (PyVal.str v) ∧
      (v = [] ∨ pyStartsWith v kGraph = true) := by
  simp only [parse_analysis] at h
  cases hl : pyLoads (pyStrip (fenceStrip (pyStrip s))) with
  | none =>
    rw [hl] at h
    injection h with h
    refine ⟨_, [], h.symm, ?_, Or.inl rfl⟩
    rfl
  | some data =>
    rw [hl] at h
    cases hfd : fillDefaults default_keys data with
    | error e => simp [analysisOfData, hfd] at h
    | ok d1 =>
      simp only [analysisOfData, hfd] at h
      have hc := fillDefaults_ok_contains hfd kMermaid (by simp [default_keys])
      cases d1 with
      | dict m1 =>
        cases hgi : assocGet m1 kMermaid with
        | none => simp [pyContains, assocHas, hgi] at hc
        | some v0 =>
          cases v0 with
          | str s0 =>
            simp only [mermaidFix_dict_eq m1 s0 hgi] at h
            obtain ⟨m3, hr, hpres⟩ := techStackFix_ok_dict _ _ h
            refine ⟨m3, mermaidTransform s0, hr, ?_, mermaidTransform_inv s0⟩
            rw [hpres, assocGet_set_self]
          | num n => simp [mermaidFix_dict_nonstr m1 _ hgi (by intro t ht; cases ht)] at h
          | bool b => simp [mermaidFix_dict_nonstr m1 _ hgi (by intro t ht; cases ht)] at h
          | null => simp [mermaidFix_dict_nonstr m1 _ hgi (by intro t ht; cases ht)] at h
          | list l => simp [mermaidFix_dict_nonstr m1 _ hgi (by intro t ht; cases ht)] at h
          | dict md => simp [mermaidFix_dict_nonstr m1 _ hgi (by intro t ht; cases ht)] at h
      | str t => simp [mermaidFix, hc, pyGetItem] at h
      | list l => simp [mermaidFix, hc, pyGetItem] at h
      | num n => simp [pyContains] at hc
      | bool b => simp [pyContains] at hc
      | null => simp [pyContains] at hc

theorem pyStartsWith_false_of_head {c p0 : Char} {cs ps : List Char} (h : ¬ c = p0) :
    pyStartsWith (c :: cs) (p0 :: ps) = false := by
  simp [pyStartsWith, h]

theorem fenceStrip_of_not_fenced {j : List Char}
    (h1 : pyStartsWith j kFence3 = false) (h2 : pyEndsWith j kFence3 = false) :
    fenceStrip j = j := by
  have hj : pyStartsWith j kFenceJson = false := by
    cases hjson : pyStartsWith j kFenceJson with
    | false => rfl
    | true =>
      have : pyStartsWith j kFence3 = true :=
        pyStartsWith_of_append (p := kFence3) (q := "json".data) hjson
      rw [this] at h1
      cases h1
  simp [fenceStrip, hj, h1, h2]

theorem pyStrip_cons_newline (l : List Char) : pyStrip ('\n' :: l) = pyStrip l :=
  pyStrip_cons_space l (by decide)

theorem pyStrip_concat_newline (l : List Char) : pyStrip (l ++ ['\n']) = pyStrip l :=
  pyStrip_concat_space l (by decide)

theorem fenceStrip_wrap_json (j : List Char) :
    fenceStrip ("```json\n".data ++ j ++ "\n```".data) = '\n' :: j ++ ['\n'] := by
  have h1 : pyStartsWith ("```json\n".data ++ j ++ "\n```".data) kFenceJson = true := by
    have : "```json\n".data ++ j ++ "\n```".data =
        kFenceJson ++ ('\n' :: (j ++ "\n```".data)) := by simp [kFenceJson]
    rw [this]
    exact pyStartsWith_append_left _ _
  have hdrop : ("```json\n".data ++ j ++ "\n```".data).drop 7 = '\n' :: (j ++ "\n```".data) := by
    simp
  have h2 : pyStartsWith ('\n' :: (j ++ "\n```".data)) kFence3 = false := by
    apply pyStartsWith_false_of_head
    decide
  have h3 : pyEndsWith ('\n' :: (j ++ "\n```".data)) kFence3 = true := by
    unfold pyEndsWith
    have : ('\n' :: (j ++ "\n```".data)).reverse =
        kFence3.reverse ++ ('\n' :: j.reverse ++ ['\n']) := by
      simp [kFence3]
    rw [this]
    have hk : kFence3.reverse = kFence3 := by decide
    rw [hk]
    exact pyStartsWith_append_left _ _
  have h4 : pyDropRight 3 ('\n' :: (j ++ "\n```".data)) = '\n' :: j ++ ['\n'] := by
    unfold pyDropRight
    have : ('\n' :: (j ++ "\n```".data)).reverse =
        '`' :: '`' :: '`' :: ('\n' :: j.reverse ++ ['\n']).reverse.reverse := by
      simp
    rw [this]
    simp
  simp only [fenceStrip, h1, if_true, hdrop, h2, Bool.false_eq_true, if_false, h3, h4]

theorem fenceStrip_wrap_bare (j : List Char) :
    fenceStrip ("```\n".data ++ j ++ "\n```".data) = '\n' :: j ++ ['\n'] := by
  have h0 : pyStartsWith ("```\n".data ++ j ++ "\n```".data) kFenceJson = false := by
    have he : "```\n".data ++ j ++ "\n```".data =
        '`' :: '`' :: '`' :: '\n' :: (j ++ "\n```".data) := by simp
    rw [he]
    simp [kFenceJson, pyStartsWith]
  have h1 : pyStartsWith ("```\n".data ++ j ++ "\n```".data) kFence3 = true := by
    have : "```\n".data ++ j ++ "\n```".data =
        kFence3 ++ ('\n' :: (j ++ "\n```".data)) := by simp [kFence3]
    rw [this]
    exact pyStartsWith_append_left _ _
  have hdrop : ("```\n".data ++ j ++ "\n```".data).drop 3 = '\n' :: (j ++ "\n```".data) := by
    simp
  have h3 : pyEndsWith ('\n' :: (j ++ "\n```".data)) kFence3 = true := by
    unfold pyEndsWith
    have : ('\n' :: (j ++ "\n```".data)).reverse =
        kFence3.reverse ++ ('\n' :: j.reverse ++ ['\n']) := by
      simp [kFence3]
    rw [this]
    have hk : kFence3.reverse = kFence3 := by decide
    rw [hk]
    exact pyStartsWith_append_left _ _
  have h4 : pyDropRight 3 ('\n' :: (j ++ "\n```".data)) = '\n' :: j ++ ['\n'] := by
    unfold pyDropRight
    have : ('\n' :: (j ++ "\n```".data)).reverse =
        '`' :: '`' :: '`' :: ('\n' :: j.reverse ++ ['\n']).reverse.reverse := by
      simp
    rw [this]
    simp
  simp only [fenceStrip, h0, Bool.false_eq_true, if_false, h1, if_true, hdrop, h3, h4]

theorem pyStrip_eq_self_of_ends (a b : Char) (x : List Char)
    (ha : isPySpace a = false) (hb : isPySpace b = false) :
    pyStrip (a :: (x ++ [b])) = a :: (x ++ [b]) := by
  apply pyStrip_eq_self
  · intro c h
    simp only [List.head?_cons] at h
    injection h with h
    rw [← h]
    exact ha
  · intro c h
    rw [← List.head?_reverse] at h
    have hrev : (a :: (x ++ [b])).reverse = b :: (x.reverse ++ [a]) := by simp
    rw [hrev] at h
    simp only [List.head?_cons] at h
    injection h with h
    rw [← h]
    exact hb

theorem parse_analysis_wrapped (j : List Char)
    (h1 : pyStartsWith (pyStrip j) kFence3 = false)
    (h2 : pyEndsWith (pyStrip j) kFence3 = false)
    (h3 : (pyLoads (pyStrip j)).isSome = true) :
    parse_analysis ("```json\n".data ++ j ++ "\n```".data) = parse_analysis j ∧
      parse_analysis ("```\n".data ++ j ++ "\n```".data) = parse_analysis j := by
  obtain ⟨d, hd⟩ := Option.isSome_iff_exists.mp h3
  have hun : parse_analysis j = analysisOfData d := by
    simp only [parse_analysis]
    rw [fenceStrip_of_not_fenced h1 h2, pyStrip_idem, hd]
  have hmid : pyStrip ('\n' :: j ++ ['\n']) = pyStrip j := by
    rw [show ('\n' :: j ++ ['\n']) = '\n' :: (j ++ ['\n']) from rfl]
    rw [pyStrip_cons_newline, pyStrip_concat_newline]
  constructor
  · have hstrip : pyStrip ("```json\n".data ++ j ++ "\n```".data) =
        "```json\n".data ++ j ++ "\n```".data := by
      have hsh : "```json\n".data ++ j ++ "\n```".data =
          '`' :: (("``json\n".data ++ j ++ "\n``".data) ++ ['`']) := by simp
      rw [hsh]
      exact pyStrip_eq_self_of_ends _ _ _ (by decide) (by decide)
    simp only [parse_analysis]
    rw [hstrip, fenceStrip_wrap_json, hmid, hd]
    exact hun.symm
  · have hstrip : pyStrip ("```\n".data ++ j ++ "\n```".data) =
        "```\n".data ++ j ++ "\n```".data := by
      have hsh : "```\n".data ++ j ++ "\n```".data =
          '`' :: (("``\n".data ++ j ++ "\n``".data) ++ ['`']) := by simp
      rw [hsh]
      exact pyStrip_eq_self_of_ends _ _ _ (by decide) (by decide)
    simp only [parse_analysis]
    rw [hstrip, fenceStrip_wrap_bare, hmid, hd]
    exact hun.symm

theorem takeWhile_all {p : Char → Bool} {l : List Char} (h : ∀ c ∈ l, p c = true) :
    l.takeWhile p = l := by
  induction l with
  | nil => rfl
  | cons c cs ih =>
    rw [List.takeWhile_cons, h c (by simp)]
    simp only [if_true]
    rw [ih (fun c hc => h c (by simp [hc]))]

theorem takeWhile_append_stop {p : Char → Bool} {l : List Char} {x : Char} {r : List Char}
    (hl : ∀ c ∈ l, p c = true) (hx : p x = false) :
    (l ++ x :: r).takeWhile p = l := by
  induction l with
  | nil => simp [List.takeWhile_cons, hx]
  | cons c cs ih =>
    rw [List.cons_append, List.takeWhile_cons, hl c (by simp)]
    simp only [if_true]
    rw [ih (fun c hc => hl c (by simp [hc]))]

theorem dropWhile_append_stop {p : Char → Bool} {l : List Char} {x : Char} {r : List Char}
    (hl : ∀ c ∈ l, p c = true) (hx : p x = false) :
    (l ++ x :: r).dropWhile p = x :: r := by
  induction l with
  | nil => simp [List.dropWhile_cons, hx]
  | cons c cs ih =>
    rw [List.cons_append, List.dropWhile_cons, hl c (by simp)]
    simp only [if_true]
    exact ih (fun c hc => hl c (by simp [hc]))

theorem ghMatchAt_cons_ne {c : Char} (cs : List Char) (h : ¬ c = 'g') :
    ghMatchAt (c :: cs) = none := by
  have : pyStartsWith (c :: cs) ghLit = false := by
    rw [show ghLit = 'g' :: "ithub.com/".data from rfl]
    exact pyStartsWith_false_of_head h
  simp [ghMatchAt, this]

theorem ghMatchAt_none_of_not_starts {s : List Char} (h : pyStartsWith s ghLit = false) :
    ghMatchAt s = none := by
  simp [ghMatchAt, h]

theorem ghSearch_append (x y : List Char)
    (h : ∀ i, i < x.length → ghMatchAt ((x ++ y).drop i) = none) :
    ghSearch (x ++ y) = ghSearch y := by
  induction x with
  | nil => simp
  | cons c cs ih =>
    have h0 := h 0 (by simp)
    simp only [List.drop_zero, List.cons_append] at h0
    rw [List.cons_append]
    show (match ghMatchAt (c :: (cs ++ y)) with
      | some r => some r
      | none => ghSearch (cs ++ y)) = ghSearch y
    rw [h0]
    refine ih (fun i hi => ?_)
    have := h (i + 1) (by simpa using hi)
    simpa using this

theorem ghSearch_eq_none (u : List Char) (h : ∀ i, ghMatchAt (u.drop i) = none) :
    ghSearch u = none := by
  induction u with
  | nil => rfl
  | cons c cs ih =>
    have h0 := h 0
    simp only [List.drop_zero] at h0
    show (match ghMatchAt (c :: cs) with
      | some r => some r
      | none => ghSearch cs) = none
    rw [h0]
    exact ih (fun i => by simpa using h (i + 1))

theorem ghMatchAt_exact (owner repo post : List Char)
    (ho1 : ¬ owner = []) (ho2 : ∀ c ∈ owner, ¬ c = '/')
    (hr1 : ¬ repo = []) (hr2 : ∀ c ∈ repo, ghStop c = false)
    (hpost : post = [] ∨ ∃ c t, post = c :: t ∧ ghStop c = true) :
    ghMatchAt (ghLit ++ (owner ++ '/' :: (repo ++ post))) = some (owner, repo) := by
  have hstart : pyStartsWith (ghLit ++ (owner ++ '/' :: (repo ++ post))) ghLit = true :=
    pyStartsWith_append_left _ _
  have hdrop : (ghLit ++ (owner ++ '/' :: (repo ++ post))).drop 11 =
      owner ++ '/' :: (repo ++ post) := by
    rw [show (11 : Nat) = ghLit.length from rfl]
    exact List.drop_left _ _
  have htw : (owner ++ '/' :: (repo ++ post)).takeWhile (fun c => !(c == '/')) = owner :=
    takeWhile_append_stop (fun c hc => by simp [ho2 c hc]) (by simp)
  have hdw : (owner ++ '/' :: (repo ++ post)).dropWhile (fun c => !(c == '/')) =
      '/' :: (repo ++ post) :=
    dropWhile_append_stop (fun c hc => by simp [ho2 c hc]) (by simp)
  have hrepo : (repo ++ post).takeWhile (fun c => !(ghStop c)) = repo := by
    rcases hpost with hp | ⟨c, t, hp, hstop⟩
    · rw [hp, List.append_nil]
      exact takeWhile_all (fun c hc => by simp [hr2 c hc])
    · rw [hp]
      exact takeWhile_append_stop (fun c hc => by simp [hr2 c hc]) (by simp [hstop])
  simp only [ghMatchAt, hstart, if_true, hdrop, htw, hdw, hrepo]
  simp [ho1, hr1, List.isEmpty_iff]

theorem listContainsSub_nil_sub (u : List Char) : listContainsSub u [] = true := by
  cases u <;> simp [listContainsSub, pyStartsWith]

theorem pyStartsWith_extend {s p : List Char} (t : List Char)
    (h : pyStartsWith s p = true) : pyStartsWith (s ++ t) p = true := by
  induction p generalizing s with
  | nil => simp [pyStartsWith]
  | cons a ps ih =>
    cases s with
    | nil => simp [pyStartsWith] at h
    | cons c cs =>
      simp only [pyStartsWith, Bool.and_eq_true] at h
      simp only [List.cons_append, pyStartsWith, Bool.and_eq_true]
      exact ⟨h.1, ih h.2⟩

theorem listContainsSub_iff (u sub : List Char) :
    listContainsSub u sub = true ↔ ∃ i, pyStartsWith (u.drop i) sub = true := by
  induction u with
  | nil =>
    simp only [listContainsSub, List.drop_nil]
    constructor
    · intro h
      exact ⟨0, by cases sub <;> simp_all [pyStartsWith]⟩
    · rintro ⟨i, hi⟩
      cases sub <;> simp_all [pyStartsWith]
  | cons c cs ih =>
    simp only [listContainsSub, Bool.or_eq_true, ih]
    constructor
    · rintro (h | ⟨i, hi⟩)
      · exact ⟨0, by simpa using h⟩
      · exact ⟨i + 1, by simpa using hi⟩
    · rintro ⟨i, hi⟩
      cases i with
      | zero => exact Or.inl (by simpa using hi)
      | succ i => exact Or.inr ⟨i, by simpa using hi⟩

theorem listContainsSub_mono_suffix {u y sub : List Char}
    (hy : y <:+ u) (h : listContainsSub u sub = false) : listContainsSub y sub = false := by
  cases hcy : listContainsSub y sub with
  | false => rfl
  | true =>
    obtain ⟨i, hi⟩ := (listContainsSub_iff y sub).mp hcy
    obtain ⟨w, hw⟩ := hy
    have : pyStartsWith (u.drop (w.length + i)) sub = true := by
      rw [← hw, List.drop_append]
      exact hi
    rw [(listContainsSub_iff u sub).mpr ⟨_, this⟩] at h
    cases h

theorem listContainsSub_mono_start {u y sub : List Char}
    (hy : y <+: u) (h : listContainsSub u sub = false) : listContainsSub y sub = false := by
  cases hcy : listContainsSub y sub with
  | false => rfl
  | true =>
    by_cases hsub : sub = []
    · rw [hsub, listContainsSub_nil_sub u] at h
      cases h
    · obtain ⟨i, hi⟩ := (listContainsSub_iff y sub).mp hcy
      obtain ⟨w, hw⟩ := hy
      by_cases hlen : i ≤ y.length
      · have : pyStartsWith (u.drop i) sub = true := by
          rw [← hw, List.drop_append_of_le_length hlen]
          exact pyStartsWith_extend _ hi
        rw [(listContainsSub_iff u sub).mpr ⟨_, this⟩] at h
        cases h
      · rw [List.drop_eq_nil_of_le (by omega)] at hi
        cases sub with
        | nil => exact absurd rfl hsub
        | cons a t => simp [pyStartsWith] at hi

theorem listContainsSub_all_drops {u sub : List Char}
    (h : listContainsSub u sub = false) : ∀ i, pyStartsWith (u.drop i) sub = false := by
  intro i
  cases hc : pyStartsWith (u.drop i) sub with
  | false => rfl
  | true =>
    rw [(listContainsSub_iff u sub).mpr ⟨i, hc⟩] at h
    cases h

theorem extract_repo_info_nomatch (u : List Char)
    (h : listContainsSub u ghLit = false) : extract_repo_info u = (none, none) := by
  have h1 : listContainsSub (u.dropWhile isPySpace) ghLit = false :=
    listContainsSub_mono_suffix (List.dropWhile_suffix isPySpace) h
  have h2 : listContainsSub (pyStrip u) ghLit = false :=
    listContainsSub_mono_start (pyDropWhileEnd_isPre isPySpace (u.dropWhile isPySpace)) h1
  have h3 : listContainsSub (pyRstripSlashes (pyStrip u)) ghLit = false :=
    listContainsSub_mono_start (pyDropWhileEnd_isPre _ _) h2
  have hsearch : ghSearch (pyRstripSlashes (pyStrip u)) = none :=
    ghSearch_eq_none _ (fun i =>
      ghMatchAt_none_of_not_starts (listContainsSub_all_drops h3 i))
  simp [extract_repo_info, hsearch]

theorem ghSearch_cons_eq {c : Char} {cs : List Char} {pr : List Char × List Char}
    (h : ghMatchAt (c :: cs) = some pr) : ghSearch (c :: cs) = some pr := by
  show (match ghMatchAt (c :: cs) with | some r => some r | none => ghSearch cs) = some pr
  rw [h]

theorem ghSearch_url (pre owner repo post : List Char)
    (hpre : ∀ i, i < pre.length →
      ghMatchAt ((pre ++ (ghLit ++ (owner ++ '/' :: (repo ++ post)))).drop i) = none)
    (ho1 : ¬ owner = []) (ho2 : ∀ c ∈ owner, ¬ c = '/')
    (hr1 : ¬ repo = []) (hr2 : ∀ c ∈ repo, ghStop c = false)
    (hpost : post = [] ∨ ∃ c t, post = c :: t ∧ ghStop c = true) :
    ghSearch (pre ++ (ghLit ++ (owner ++ '/' :: (repo ++ post)))) = some (owner, repo) := by
  rw [ghSearch_append _ _ hpre]
  have hm := ghMatchAt_exact owner repo post ho1 ho2 hr1 hr2 hpost
  rw [show ghLit ++ (owner ++ '/' :: (repo ++ post)) =
    'g' :: ("ithub.com/".data ++ (owner ++ '/' :: (repo ++ post))) from rfl] at hm ⊢
  exact ghSearch_cons_eq hm

theorem norm_noop (l : List Char)
    (hhead : ∀ c, l.head? = some c → isPySpace c = false)
    (hlast : ∀ c, l.getLast? = some c → isPySpace c = false ∧ (c == '/') = false) :
    pyRstripSlashes (pyStrip l) = l := by
  rw [pyStrip_eq_self hhead (fun c hc => (hlast c hc).1)]
  exact pyDropWhileEnd_eq_self (fun c hc => (hlast c hc).2)

theorem ghStop_false_elim {c : Char} (h : ghStop c = false) :
    (c == '/') = false ∧ (c == '?') = false ∧ (c == '#') = false ∧ isPySpace c = false := by
  simp only [ghStop, Bool.or_eq_false_iff] at h
  exact ⟨h.1.1.1, h.1.1.2, h.1.2, h.2⟩

theorem getLast?_url {owner repo post : List Char} (pre : List Char) (hr1 : ¬ repo = [])
    (hpost : post = []) :
    (pre ++ (ghLit ++ (owner ++ '/' :: (repo ++ post)))).getLast? = repo.getLast? := by
  subst hpost
  rw [List.append_nil]
  rw [List.getLast?_append_of_ne_nil _ (by simp [ghLit])]
  rw [List.getLast?_append_of_ne_nil _ (by simp)]
  rw [show ('/' :: repo) = ['/'] ++ repo from rfl]
  rw [List.getLast?_append_of_ne_nil _ (by simp)]
  rw [List.getLast?_append_of_ne_nil _ hr1]

theorem https_pre_no_match (y : List Char) :
    ∀ i, i < ("https://".data).length →
      ghMatchAt (("https://".data ++ y).drop i) = none := by
  intro i hi
  rw [show "https://".data ++ y =
    'h' :: 't' :: 't' :: 'p' :: 's' :: ':' :: '/' :: '/' :: y from rfl]
  rw [show ("https://".data).length = 8 from rfl] at hi
  interval_cases i <;>
    · simp only [List.drop_succ_cons, List.drop_zero]
      exact ghMatchAt_cons_ne _ (by decide)

theorem extract_repo_info_url (owner repo : List Char)
    (ho1 : ¬ owner = []) (ho2 : ∀ c ∈ owner, ¬ c = '/')
    (hr1 : ¬ repo = []) (hr2 : ∀ c ∈ repo, ghStop c = false) :
    extract_repo_info ("https://github.com/".data ++ owner ++ "/".data ++ repo) =
      (some owner, some (pyReplace repo ".git".data [])) := by
  have hshape : "https://github.com/".data ++ owner ++ "/".data ++ repo =
      "https://".data ++ (ghLit ++ (owner ++ '/' :: (repo ++ []))) := by simp [ghLit]
  rw [hshape]
  have hlast : ∀ c, ("https://".data ++ (ghLit ++ (owner ++ '/' :: (repo ++ [])))).getLast? =
      some c → isPySpace c = false ∧ (c == '/') = false := by
    intro c hc
    rw [getLast?_url _ hr1 rfl] at hc
    have hmem := List.mem_of_mem_getLast? hc
    have := ghStop_false_elim (hr2 c hmem)
    exact ⟨this.2.2.2, this.1⟩
  have hhead : ∀ c, ("https://".data ++ (ghLit ++ (owner ++ '/' :: (repo ++ [])))).head? =
      some c → isPySpace c = false := by
    intro c hc
    rw [show "https://".data ++ (ghLit ++ (owner ++ '/' :: (repo ++ []))) =
      'h' :: ("ttps://".data ++ (ghLit ++ (owner ++ '/' :: (repo ++ [])))) from rfl] at hc
    simp only [List.head?_cons] at hc
    injection hc with hc
    rw [← hc]
    decide
  have hnorm := norm_noop _ hhead hlast
  have hsearch := ghSearch_url "https://".data owner repo []
    (https_pre_no_match _) ho1 ho2 hr1 hr2 (Or.inl rfl)
  simp only [extract_repo_info, hnorm, hsearch]

theorem extract_repo_info_url_slash (owner repo : List Char)
    (ho1 : ¬ owner = []) (ho2 : ∀ c ∈ owner, ¬ c = '/')
    (hr1 : ¬ repo = []) (hr2 : ∀ c ∈ repo, ghStop c = false) :
    extract_repo_info ("https://github.com/".data ++ owner ++ "/".data ++ repo ++ "/".data) =
      (some owner, some (pyReplace repo ".git".data [])) := by
  have hshape : "https://github.com/".data ++ owner ++ "/".data ++ repo ++ "/".data =
      ("https://".data ++ (ghLit ++ (owner ++ '/' :: (repo ++ [])))) ++ ['/'] := by simp [ghLit]
  rw [hshape]
  have hstrip : pyStrip (("https://".data ++ (ghLit ++ (owner ++ '/' :: (repo ++ [])))) ++ ['/']) =
      ("https://".data ++ (ghLit ++ (owner ++ '/' :: (repo ++ [])))) ++ ['/'] := by
    apply pyStrip_eq_self
    · intro c hc
      rw [show ("https://".data ++ (ghLit ++ (owner ++ '/' :: (repo ++ [])))) ++ ['/'] =
        'h' :: (("ttps://".data ++ (ghLit ++ (owner ++ '/' :: (repo ++ [])))) ++ ['/']) from
        by simp] at hc
      simp only [List.head?_cons] at hc
      injection hc with hc
      rw [← hc]
      decide
    · intro c hc
      rw [List.getLast?_append_of_ne_nil _ (by simp)] at hc
      simp only [List.getLast?_singleton] at hc
      injection hc with hc
      rw [← hc]
      decide
  have hlast : ∀ c, ("https://".data ++ (ghLit ++ (owner ++ '/' :: (repo ++ [])))).getLast? =
      some c → (c == '/') = false := by
    intro c hc
    rw [getLast?_url _ hr1 rfl] at hc
    exact (ghStop_false_elim (hr2 c (List.mem_of_mem_getLast? hc))).1
  have hrs : pyRstripSlashes (("https://".data ++ (ghLit ++ (owner ++ '/' :: (repo ++ [])))) ++ ['/']) =
      "https://".data ++ (ghLit ++ (owner ++ '/' :: (repo ++ []))) := by
    unfold pyRstripSlashes
    rw [pyDropWhileEnd_concat _ (by decide)]
    exact pyDropWhileEnd_eq_self hlast
  have hsearch := ghSearch_url "https://".data owner repo []
    (https_pre_no_match _) ho1 ho2 hr1 hr2 (Or.inl rfl)
  simp only [extract_repo_info, hstrip, hrs, hsearch]

theorem pyStrLe_total (a b : List Char) : (pyStrLe a b || pyStrLe b a) = true := by
  induction a generalizing b with
  | nil => simp [pyStrLe]
  | cons x xs ih =>
    cases b with
    | nil => simp [pyStrLe]
    | cons y ys =>
      by_cases h1 : x.toNat < y.toNat
      · simp [pyStrLe, h1]
      · by_cases h2 : y.toNat < x.toNat
        · simp [pyStrLe, h1, h2]
        · simpa [pyStrLe, h1, h2] using ih ys

theorem pyStrLe_trans (a b c : List Char) (h1 : pyStrLe a b = true) (h2 : pyStrLe b c = true) :
    pyStrLe a c = true := by
  induction a generalizing b c with
  | nil => simp [pyStrLe]
  | cons x xs ih =>
    cases b with
    | nil => simp [pyStrLe] at h1
    | cons y ys =>
      cases c with
      | nil => simp [pyStrLe] at h2
      | cons z zs =>
        simp only [pyStrLe] at h1 h2 ⊢
        split_ifs at h1 h2 ⊢ <;> first
          | rfl
          | omega
          | exact Bool.noConfusion h1
          | exact Bool.noConfusion h2
          | exact ih ys zs h1 h2

theorem structLe_total (a b : RepoItem) : (structLe a b || structLe b a) = true := by
  have key : ∀ (ka kb : Nat) (sa sb : List Char),
      (((decide (ka < kb)) || ((ka == kb) && pyStrLe sa sb)) ||
        ((decide (kb < ka)) || ((kb == ka) && pyStrLe sb sa))) = true := by
    intro ka kb sa sb
    rcases Nat.lt_trichotomy ka kb with h | h | h
    · simp [h]
    · subst h
      rcases (Bool.or_eq_true _ _).mp (pyStrLe_total sa sb) with hs | hs <;> simp [hs]
    · simp [h]
  exact key _ _ _ _

theorem structLe_trans (a b c : RepoItem) (h1 : structLe a b = true) (h2 : structLe b c = true) :
    structLe a c = true := by
  have key : ∀ (ka kb kc : Nat) (sa sb sc : List Char),
      ((decide (ka < kb)) || ((ka == kb) && pyStrLe sa sb)) = true →
      ((decide (kb < kc)) || ((kb == kc) && pyStrLe sb sc)) = true →
      ((decide (ka < kc)) || ((ka == kc) && pyStrLe sa sc)) = true := by
    intro ka kb kc sa sb sc g1 g2
    simp only [Bool.or_eq_true, decide_eq_true_eq, Bool.and_eq_true, beq_iff_eq] at g1 g2 ⊢
    rcases g1 with g1 | ⟨g1e, g1s⟩ <;> rcases g2 with g2 | ⟨g2e, g2s⟩
    · exact Or.inl (Nat.lt_trans g1 g2)
    · exact Or.inl (g2e ▸ g1)
    · exact Or.inl (g1e ▸ g2)
    · exact Or.inr ⟨g1e.trans g2e, pyStrLe_trans _ _ _ g1s g2s⟩
  exact key _ _ _ _ _ _ h1 h2

/-- Failure of one best-effort sub-fetch: timeout, network error, other
exception, or a non-200 HTTP status. -/
def subFailed {β : Type} (r : HttpResult β) : Prop :=
  r = .timeout ∨ (∃ m, r = .netError m) ∨ r = .exn ∨
    (∃ s hs b, r = .resp s hs b ∧ ¬ s = 200)

/-- Failure of the top-level repository fetch: timeout, network error, or a
non-200 HTTP status. -/
def topFailed {β : Type} (t : TopResult β) : Prop :=
  t = .timeout ∨ (∃ m, t = .netError m) ∨ (∃ s hs b, t = .resp s hs b ∧ ¬ s = 200)

theorem fetch_readme_failed (decode : List Char → Option (List Char))
    (r : HttpResult ReadmeBody) (h : subFailed r) : fetch_readme decode r = none := by
  rcases h with h | ⟨m, h⟩ | h | ⟨s, hs, b, h, hne⟩ <;> subst h
  · rfl
  · rfl
  · rfl
  · rw [fetch_readme.eq_def]
    split
    · next heq => injection heq with h1; exact absurd h1 hne
    · rfl

theorem fetch_repo_structure_failed (r : HttpResult (List RepoItem)) (h : subFailed r) :
    fetch_repo_structure r = [] := by
  rcases h with h | ⟨m, h⟩ | h | ⟨s, hs, b, h, hne⟩ <;> subst h
  · rfl
  · rfl
  · rfl
  · rw [fetch_repo_structure.eq_def]
    split
    · next heq => injection heq with h1; exact absurd h1 hne
    · rfl
    · rfl

theorem tryBranches_none (raw : List Char → List Char → HttpResult (List Char))
    (path : List Char) (h : ∀ br, subFailed (raw br path)) :
    tryBranches raw path = none := by
  unfold tryBranches
  split
  · next hs c heq =>
    exfalso
    rcases h ("main".data) with h1 | ⟨m, h1⟩ | h1 | ⟨s, hs2, b, h1, hne⟩ <;> rw [heq] at h1
    · exact HttpResult.noConfusion h1
    · exact HttpResult.noConfusion h1
    · exact HttpResult.noConfusion h1
    · injection h1 with e1 e2 e3
      exact hne e1.symm
  · split
    · next hs c heq =>
      exfalso
      rcases h ("master".data) with h1 | ⟨m, h1⟩ | h1 | ⟨s, hs2, b, h1, hne⟩ <;> rw [heq] at h1
      · exact HttpResult.noConfusion h1
      · exact HttpResult.noConfusion h1
      · exact HttpResult.noConfusion h1
      · injection h1 with e1 e2 e3
        exact hne e1.symm
    · rfl

theorem fetch_dependency_files_none (raw : List Char → List Char → HttpResult (List Char))
    (items : List RepoItem) (h : ∀ br p, subFailed (raw br p)) :
    fetch_dependency_files raw items = [] := by
  suffices haux : ∀ acc : List (List Char × List Char),
      items.foldl
        (fun deps it =>
          if it.type == "file".data && DEPENDENCY_FILES.contains it.name then
            match tryBranches raw it.path with
            | some c => assocSet deps it.name (pyTruncate 4000 c)
            | none => deps
          else deps) acc = acc by
    exact haux []
  intro acc
  induction items generalizing acc with
  | nil => rfl
  | cons it rest ih =>
    rw [List.foldl_cons]
    rw [show (if it.type == "file".data && DEPENDENCY_FILES.contains it.name then
        match tryBranches raw it.path with
        | some c => assocSet acc it.name (pyTruncate 4000 c)
        | none => acc
      else acc) = acc from by
        rw [tryBranches_none raw it.path (fun br => h br it.path)]
        split <;> rfl]
    exact ih acc

theorem languages_failed (r : HttpResult (List (List Char × Nat))) (h : subFailed r) :
    languagesOf r = [] := by
  unfold languagesOf
  rcases h with h1 | ⟨m, h1⟩ | h1 | ⟨s, hs2, b, h1, hne⟩ <;> subst h1
  · rfl
  · rfl
  · rfl
  · split
    · next heq => injection heq with e1; exact absurd e1 hne
    · rfl

/-- C7: when the top-level repository fetch returns HTTP 403 with the
remaining-quota header equal to "0", `fetch_github_data` returns no payload
and the rate-limit message, which contains the token-configuration tip when
no GitHub token is configured and the wait-and-retry advice when one is;
a 403 with a different remaining-quota header yields the forbidden/private
message instead. -/
theorem c7_rate_limit (o r tok : List Char) (dec : List Char → Option (List Char))
    (env : FetchEnv) (hs : List (List Char × List Char)) (b : RepoBody)
    (heq : env.repoResp = .resp 403 hs b) :
    (headersGet hs ("X-RateLimit-Remaining".data) ("unknown".data) = "0".data →
      fetch_github_data o r tok dec env = (none, some (rateLimitMessage tok)) ∧
      (tok = [] →
        listContainsSub (rateLimitMessage tok) ("Add a GitHub token".data) = true) ∧
      (¬ tok = [] →
        listContainsSub (rateLimitMessage tok)
          ("Please wait a few minutes and try again.".data) = true)) ∧
    (¬ headersGet hs ("X-RateLimit-Remaining".data) ("unknown".data) = "0".data →
      fetch_github_data o r tok dec env =
        (none, some ("Access forbidden. The repository might be private.".data))) := by
  constructor
  · intro hrem
    refine ⟨?_, ?_, ?_⟩
    · simp [fetch_github_data, heq, hrem]
    · intro htok
      subst htok
      decide
    · intro htok
      cases tok with
      | nil => exact absurd rfl htok
      | cons c t =>
        have hmsg : rateLimitMessage (c :: t) =
            "GitHub API rate limit exceeded.\n\n".data ++
              "Please wait a few minutes and try again.".data := rfl
        rw [hmsg]
        decide
  · intro hrem
    have hb : (headersGet hs ("X-RateLimit-Remaining".data) ("unknown".data) == "0".data) = false := by
      simpa using hrem
    simp [fetch_github_data, heq, hb]

/-- C8: failures of the best-effort sub-fetches (readme, directory
listing, dependency files, language byte counts) never make
`fetch_github_data` fail — each failed sub-fetch contributes an
empty/absent field of the returned payload — while any failure of the
top-level repository fetch makes it return no payload and an error
message. -/
theorem c8_best_effort (o r tok : List Char)
    (dec : List Char → Option (List Char)) (env : FetchEnv) :
    (topFailed env.repoResp →
      (fetch_github_data o r tok dec env).1 = none ∧
      ∃ m, (fetch_github_data o r tok dec env).2 = some m) ∧
    (∀ hs b, env.repoResp = .resp 200 hs b →
      (fetch_github_data o r tok dec env).2 = none ∧
      ∃ d, (fetch_github_data o r tok dec env).1 = some d ∧
        (subFailed env.readmeResp → d.readme = none) ∧
        (subFailed env.contentsResp → d.structureList = []) ∧
        (subFailed env.langResp → d.languages_stats = []) ∧
        ((∀ br p, subFailed (env.rawFile br p)) → d.dependencies = [])) := by
  constructor
  · intro h
    rcases h with ht | ⟨m, hn⟩ | ⟨s, hsx, b, hr, hne⟩
    · simp [fetch_github_data, ht]
    · simp [fetch_github_data, hn]
    · simp only [fetch_github_data, hr]
      split_ifs <;> simp_all
  · intro hsx b heq
    have hred : fetch_github_data o r tok dec env =
        (some { readme := fetch_readme dec env.readmeResp,
                structureList := fetch_repo_structure env.contentsResp,
                dependencies :=
                  fetch_dependency_files env.rawFile (fetch_repo_structure env.contentsResp),
                languages_stats := languagesOf env.langResp,
                description := b.description.getD [],
                language := b.language.getD [],
                topics := b.topics.getD [],
                stars := b.stargazers_count.getD 0,
                forks := b.forks_count.getD 0 }, none) := by
      simp [fetch_github_data, heq]
    refine ⟨by rw [hred], ?_⟩
    refine ⟨_, by rw [hred], ?_, ?_, ?_, ?_⟩
    · intro hf
      exact fetch_readme_failed dec env.readmeResp hf
    · intro hf
      exact fetch_repo_structure_failed env.contentsResp hf
    · intro hf
      exact languages_failed env.langResp hf
    · intro hf
      exact fetch_dependency_files_none env.rawFile _ hf

theorem fillDefaults_preserve (ks : List (List Char)) (m : List (List Char × PyVal))
    (k : List Char) (hk : k ∉ ks) :
    ∃ m', fillDefaults ks (PyVal.dict m) = .ok (PyVal.dict m') ∧
      assocGet m' k = assocGet m k := by
  induction ks generalizing m with
  | nil => exact ⟨m, rfl, rfl⟩
  | cons k2 ks ih =>
    have hne : ¬ k2 = k := fun he => hk (by simp [he])
    have hk' : k ∉ ks := fun he => hk (by simp [he])
    by_cases hb : assocHas m k2 = true
    · obtain ⟨m', h1, h2⟩ := ih m hk'
      exact ⟨m', by simp [fillDefaults, pyContains, hb, h1], h2⟩
    · obtain ⟨m', h1, h2⟩ := ih (assocSet m k2 (defaultValueFor k2)) hk'
      refine ⟨m', ?_, ?_⟩
      · simp only [Bool.not_eq_true] at hb
        simp [fillDefaults, pyContains, hb, pySetItem, h1]
      · rw [h2, assocGet_set_ne _ _ _ _ hne]

theorem fillDefaults_dict_lookup (ks : List (List Char)) (m : List (List Char × PyVal))
    (k : List Char) (hnd : ks.Nodup) (hk : k ∈ ks) (habs : assocHas m k = false) :
    ∃ m', fillDefaults ks (PyVal.dict m) = .ok (PyVal.dict m') ∧
      assocGet m' k = some (defaultValueFor k) := by
  induction ks generalizing m with
  | nil => cases hk
  | cons k2 ks ih =>
    by_cases hke : k = k2
    · subst hke
      have hnotin : k ∉ ks := (List.nodup_cons.mp hnd).1
      obtain ⟨m', h1, h2⟩ := fillDefaults_preserve ks (assocSet m k (defaultValueFor k)) k hnotin
      refine ⟨m', ?_, ?_⟩
      · simp [fillDefaults, pyContains, habs, pySetItem, h1]
      · rw [h2, assocGet_set_self]
    · have hkin : k ∈ ks := by
        rcases List.mem_cons.mp hk with h | h
        · exact absurd h hke
        · exact h
      have hnd' : ks.Nodup := (List.nodup_cons.mp hnd).2
      by_cases hb : assocHas m k2 = true
      · obtain ⟨m', h1, h2⟩ := ih m hnd' hkin habs
        exact ⟨m', by simp [fillDefaults, pyContains, hb, h1], h2⟩
      · have habs2 : assocHas (assocSet m k2 (defaultValueFor k2)) k = false := by
          rw [assocHas, assocGet_set_ne _ _ _ _ (fun he => hke he.symm)]
          exact habs
        obtain ⟨m', h1, h2⟩ := ih (assocSet m k2 (defaultValueFor k2)) hnd' hkin habs2
        refine ⟨m', ?_, h2⟩
        simp only [Bool.not_eq_true] at hb
        simp [fillDefaults, pyContains, hb, pySetItem, h1]

theorem techStackFix_join (m : List (List Char × PyVal)) (l : List PyVal)
    (ss : List (List Char)) (hget : assocGet m kTechStack = some (PyVal.list l))
    (hall : allStrs l = some ss) :
    techStackFix (PyVal.dict m) =
      .ok (PyVal.dict (assocSet m kTechStack
        (PyVal.str (List.intercalate (", ".data) ss)))) := by
  simp [techStackFix, pyGetItem, hget, pyJoin, hall, pySetItem]

/-! ### The claims -/

/-- C1: the claim says `parse_analysis` never raises and always returns a
complete six-field record, including when the input is valid JSON that is
not an object or maps fields to non-string values.  The code violates
this: it catches only `json.JSONDecodeError`, so a JSON array input dies
with `TypeError` at `data[key] = ...`, and a non-string diagram value dies
with `AttributeError` at `.replace` — these evaluations exhibit both. -/
theorem c1_normalizer_raises :
    parse_analysis ("[1, 2, 3]".data) = .error .typeError ∧
    parse_analysis ("\x7b\"architecture_mermaid\": 5\x7d".data) = .error .attributeError :=
  ⟨rfl, rfl⟩

/-- C2 counterexample: the claim says only a trailing `.git` suffix is
removed and an interior `.git` (as in `foo.github.io`) is kept; the code's
`str.replace` removes every occurrence, so `foo.github.io` comes back as
`foohub.io`. -/
theorem c2_counterexample :
    extract_repo_info ("https://github.com/owner/foo.github.io".data) =
      (some ("owner".data), some ("foohub.io".data)) ∧
    ¬ (some ("foohub.io".data) = some ("foo.github.io".data)) :=
  ⟨rfl, by decide⟩

/-- C2 (amended): for a URL `https://github.com/<owner>/<repo>` with an
optional trailing slash, `extract_repo_info` returns the owner and the
repository segment with every occurrence of `.git` removed (a trailing
`.git` suffix in particular); input without the host literal yields
(absent, absent). -/
theorem c2_git_replace_everywhere (owner repo : List Char)
    (ho1 : ¬ owner = []) (ho2 : ∀ c ∈ owner, ¬ c = '/')
    (hr1 : ¬ repo = []) (hr2 : ∀ c ∈ repo, ghStop c = false) :
    extract_repo_info ("https://github.com/".data ++ owner ++ "/".data ++ repo) =
      (some owner, some (pyReplace repo (".git".data) [])) ∧
    extract_repo_info ("https://github.com/".data ++ owner ++ "/".data ++ repo ++ "/".data) =
      (some owner, some (pyReplace repo (".git".data) [])) ∧
    (∀ u, listContainsSub u ghLit = false → extract_repo_info u = (none, none)) :=
  ⟨extract_repo_info_url owner repo ho1 ho2 hr1 hr2,
   extract_repo_info_url_slash owner repo ho1 ho2 hr1 hr2,
   extract_repo_info_nomatch⟩

theorem c2_witness :
    extract_repo_info ("https://github.com/alpha/beta.git".data) =
      (some ("alpha".data), some ("beta".data)) ∧
    extract_repo_info ("hello world".data) = (none, none) := by
  have h := c2_git_replace_everywhere ("alpha".data) ("beta.git".data)
    (by decide) (by decide) (by decide) (by decide)
  constructor
  · calc extract_repo_info ("https://github.com/alpha/beta.git".data)
        = extract_repo_info
            ("https://github.com/".data ++ "alpha".data ++ "/".data ++ "beta.git".data) := by
          rw [show ("https://github.com/alpha/beta.git".data : List Char) =
            "https://github.com/".data ++ "alpha".data ++ "/".data ++ "beta.git".data from
            by decide]
      _ = (some ("alpha".data), some (pyReplace ("beta.git".data) (".git".data) [])) := h.1
      _ = (some ("alpha".data), some ("beta".data)) := by decide
  · exact h.2.2 ("hello world".data) (by decide)

/-- C3 counterexample: the claim says a diagram value that
case-insensitively equals "not available" is returned as the empty string;
in the code the lowercase comparison runs only after `graph TD;\n` has
been prepended, so it never matches and the value is returned with the
prefix instead of being emptied. -/
theorem c3_counterexample :
    resultField (parse_analysis ("\x7b\"architecture_mermaid\": \"Not Available\"\x7d".data))
        kMermaid = some ("graph TD;\nNot Available".data) ∧
    ¬ (some ("graph TD;\nNot Available".data) = some ([] : List Char)) :=
  ⟨rfl, by decide⟩

/-- C3 (amended): a diagram value "A-->B" is returned as
"graph TD;\nA-->B"; a value case-insensitively equal to "not available"
(in any casing) is prefixed like any other non-`graph` value — the
collapse-to-empty branch compares after the prefix has been added and so
never fires. -/
theorem c3_diagram_repair :
    resultField (parse_analysis ("\x7b\"architecture_mermaid\": \"A-->B\"\x7d".data)) kMermaid =
      some ("graph TD;\nA-->B".data) ∧
    resultField (parse_analysis ("\x7b\"architecture_mermaid\": \"Not Available\"\x7d".data))
        kMermaid = some ("graph TD;\nNot Available".data) ∧
    resultField (parse_analysis ("\x7b\"architecture_mermaid\": \"not available\"\x7d".data))
        kMermaid = some ("graph TD;\nnot available".data) :=
  ⟨rfl, rfl, rfl⟩

/-- C4 counterexample: the claim says wrapping works for any language tag,
e.g. ```javascript; but the code only strips the tag `json`, so a
```javascript fence leaves the word `javascript` in front of the JSON and
parsing fails, giving the error record instead of the unwrapped result. -/
theorem c4_counterexample :
    ¬ (parse_analysis ("```javascript\n\x7b\x7d\n```".data) =
        parse_analysis ("\x7b\x7d".data)) := by
  intro h
  have h2 : resultField (parse_analysis ("```javascript\n\x7b\x7d\n```".data)) kRecruiter =
      resultField (parse_analysis ("\x7b\x7d".data)) kRecruiter := by rw [h]
  rw [show resultField (parse_analysis ("```javascript\n\x7b\x7d\n```".data)) kRecruiter =
      some ("Error parsing analysis: ```javascript\n\x7b\x7d\n```...".data) from rfl,
    show resultField (parse_analysis ("\x7b\x7d".data)) kRecruiter =
      some ("Not available".data) from rfl] at h2
  exact absurd (Option.some.inj h2) (by decide)

/-- C4 (amended): for JSON text `j` (its stripped form parses, and is not
itself fenced), wrapping in a leading ```json-tagged or untagged ``` fence
and a trailing ``` fence parses identically to the unwrapped text; a
non-`json` language tag is not stripped (see the counterexample). -/
theorem c4_fence_strip (j : List Char)
    (h1 : pyStartsWith (pyStrip j) kFence3 = false)
    (h2 : pyEndsWith (pyStrip j) kFence3 = false)
    (h3 : (pyLoads (pyStrip j)).isSome = true) :
    parse_analysis ("```json\n".data ++ j ++ "\n```".data) = parse_analysis j ∧
      parse_analysis ("```\n".data ++ j ++ "\n```".data) = parse_analysis j :=
  parse_analysis_wrapped j h1 h2 h3

theorem c4_witness :
    pyStartsWith (pyStrip ("\x7b\"a\": 1\x7d".data)) kFence3 = false ∧
    pyEndsWith (pyStrip ("\x7b\"a\": 1\x7d".data)) kFence3 = false ∧
    (pyLoads (pyStrip ("\x7b\"a\": 1\x7d".data))).isSome = true ∧
    parse_analysis ("```json\n\x7b\"a\": 1\x7d\n```".data) =
      parse_analysis ("\x7b\"a\": 1\x7d".data) := by
  refine ⟨by decide, by decide, by decide, ?_⟩
  have h := c4_fence_strip ("\x7b\"a\": 1\x7d".data) (by decide) (by decide) (by decide)
  rw [show ("```json\n\x7b\"a\": 1\x7d\n```".data : List Char) =
    "```json\n".data ++ "\x7b\"a\": 1\x7d".data ++ "\n```".data from by decide]
  exact h.1

/-- C5: on `{"tech_stack":["Go","Redis"],"project_type":"API"}` the
normalizer returns tech_stack "Go, Redis", project_type "API", an empty
diagram field and "Not available" for the three other fields; in general
every required key absent from a parsed object is substituted by the
diagram/other default, and a list-valued tech_stack is joined with ", ". -/
theorem c5_normalizer :
    parse_analysis ("\x7b\"tech_stack\":[\"Go\",\"Redis\"],\"project_type\":\"API\"\x7d".data) =
      .ok (PyVal.dict
        [ (kTechStack, PyVal.str ("Go, Redis".data)),
          (kProjectType, PyVal.str ("API".data)),
          (kMermaid, PyVal.str []),
          (kArchDesc, PyVal.str kNotAvailable),
          (kWhatItDoes, PyVal.str kNotAvailable),
          (kRecruiter, PyVal.str kNotAvailable) ]) ∧
    (∀ m k, k ∈ default_keys → assocHas m k = false →
      ∃ m', fillDefaults default_keys (PyVal.dict m) = .ok (PyVal.dict m') ∧
        assocGet m' k = some (defaultValueFor k)) ∧
    (∀ m l ss, assocGet m kTechStack = some (PyVal.list l) → allStrs l = some ss →
      techStackFix (PyVal.dict m) =
        .ok (PyVal.dict (assocSet m kTechStack
          (PyVal.str (List.intercalate (", ".data) ss))))) := by
  refine ⟨rfl, ?_, ?_⟩
  · intro m k hk habs
    exact fillDefaults_dict_lookup default_keys m k (by decide) hk habs
  · intro m l ss hg ha
    exact techStackFix_join m l ss hg ha

theorem c5_witness :
    (∃ m', fillDefaults default_keys (PyVal.dict []) = .ok (PyVal.dict m') ∧
      assocGet m' kArchDesc = some (defaultValueFor kArchDesc)) ∧
    techStackFix (PyVal.dict
        [(kTechStack, PyVal.list [PyVal.str ("Go".data), PyVal.str ("Redis".data)])]) =
      .ok (PyVal.dict (assocSet
        [(kTechStack, PyVal.list [PyVal.str ("Go".data), PyVal.str ("Redis".data)])]
        kTechStack (PyVal.str (List.intercalate (", ".data) ["Go".data, "Redis".data])))) :=
  ⟨c5_normalizer.2.1 [] kArchDesc (by decide) rfl,
   c5_normalizer.2.2 _ _ _ rfl rfl⟩

/-- C6: for every directory listing, the 200-path of
`fetch_repo_structure` returns a permutation of the entries whose
lowercased name is outside the lowercased ignore set (so e.g.
"Node_Modules" is excluded), ordered by the key (directories before
files, then lowercased name). -/
theorem c6_structure (hs : List (List Char × List Char)) (items : List RepoItem) :
    (fetch_repo_structure (HttpResult.resp 200 hs items)).Perm (items.filter keepEntry) ∧
    List.Pairwise (fun a b => structLe a b = true)
      (fetch_repo_structure (HttpResult.resp 200 hs items)) ∧
    (∀ it ∈ fetch_repo_structure (HttpResult.resp 200 hs items),
      ignoreLower.contains (pyLower it.name) = false) := by
  have he : fetch_repo_structure (HttpResult.resp 200 hs items) =
      (items.filter keepEntry).mergeSort structLe := rfl
  refine ⟨he ▸ List.mergeSort_perm _ _,
    he ▸ List.sorted_mergeSort structLe_trans structLe_total _, ?_⟩
  intro it hit
  rw [he] at hit
  have hmem := (List.mergeSort_perm (items.filter keepEntry) structLe).mem_iff.mp hit
  have hkeep := (List.mem_filter.mp hmem).2
  simpa [keepEntry] using hkeep

/-- Empty repository body used by concrete witnesses. -/
def bodyEmpty : RepoBody :=
  { description := none, language := none, topics := none,
    stargazers_count := none, forks_count := none }

/-- Environment of the C7 witness: a 403 response whose remaining-quota
header is "0", every sub-fetch failing. -/
def envC7 : FetchEnv :=
  { repoResp := TopResult.resp 403 [("X-RateLimit-Remaining".data, "0".data)] bodyEmpty,
    readmeResp := HttpResult.exn, contentsResp := HttpResult.exn,
    rawFile := fun _ _ => HttpResult.exn, langResp := HttpResult.exn }

theorem c7_witness :
    fetch_github_data ("o".data) ("r".data) [] (fun _ => none) envC7 =
      (none, some (rateLimitMessage [])) ∧
    listContainsSub (rateLimitMessage []) ("Add a GitHub token".data) = true := by
  have h := c7_rate_limit ("o".data) ("r".data) [] (fun _ => none) envC7
    [("X-RateLimit-Remaining".data, "0".data)] bodyEmpty rfl
  exact ⟨(h.1 (by decide)).1, (h.1 (by decide)).2.1 rfl⟩

/-- Environment of the C8 witness: top-level fetch succeeds with status
200, every sub-fetch fails. -/
def envC8 : FetchEnv :=
  { repoResp := TopResult.resp 200 [] bodyEmpty,
    readmeResp := HttpResult.exn, contentsResp := HttpResult.timeout,
    rawFile := fun _ _ => HttpResult.netError ("down".data),
    langResp := HttpResult.resp 500 [] [] }

/-- Environment of the C8 witness, top-level timeout variant. -/
def envC8t : FetchEnv :=
  { envC8 with repoResp := TopResult.timeout }

theorem c8_witness :
    ((fetch_github_data ("o".data) ("r".data) [] (fun _ => none) envC8).2 = none ∧
      ∃ d, (fetch_github_data ("o".data) ("r".data) [] (fun _ => none) envC8).1 = some d ∧
        d.readme = none ∧ d.structureList = [] ∧ d.languages_stats = [] ∧
        d.dependencies = []) ∧
    ((fetch_github_data ("o".data) ("r".data) [] (fun _ => none) envC8t).1 = none ∧
      ∃ m, (fetch_github_data ("o".data) ("r".data) [] (fun _ => none) envC8t).2 = some m) := by
  constructor
  · have h := (c8_best_effort ("o".data) ("r".data) [] (fun _ => none) envC8).2 [] bodyEmpty rfl
    obtain ⟨h2, d, hd, hr, hst, hl, hdep⟩ := h
    refine ⟨h2, d, hd, hr (Or.inr (Or.inr (Or.inl rfl))), hst (Or.inl rfl),
      hl (Or.inr (Or.inr (Or.inr ⟨500, [], [], rfl, by decide⟩))), ?_⟩
    exact hdep (fun br p => Or.inr (Or.inl ⟨"down".data, rfl⟩))
  · exact (c8_best_effort ("o".data) ("r".data) [] (fun _ => none) envC8t).1 (Or.inl rfl)

/-- C9: whenever the fence-stripped input parses as a JSON object whose
`architecture_mermaid` entry is absent or a string, any record the
normalizer returns carries a string diagram field that is either empty or
begins with `graph` — presentation never receives a non-empty diagram
without a graph header. -/
theorem c9_mermaid_invariant (s : List Char) (m : List (List Char × PyVal)) (r : PyVal)
    (_hload : pyLoads (pyStrip (fenceStrip (pyStrip s))) = some (PyVal.dict m))
    (_hfield : assocGet m kMermaid = none ∨ ∃ v, assocGet m kMermaid = some (PyVal.str v))
    (hok : parse_analysis s = .ok r) :
    ∃ m' v, r = PyVal.dict m' ∧ assocGet m' kMermaid = some (PyVal.str v) ∧
      (v = [] ∨ pyStartsWith v kGraph = true) :=
  parse_ok_mermaid hok

/-- Input of the C9 witness. -/
def c9Input : List Char := "\x7b\"architecture_mermaid\": \"A-->B\"\x7d".data

/-- Record returned by the normalizer on `c9Input`. -/
def c9Output : PyVal :=
  PyVal.dict
    [ (kMermaid, PyVal.str ("graph TD;\nA-->B".data)),
      (kTechStack, PyVal.str kNotAvailable),
      (kProjectType, PyVal.str kNotAvailable),
      (kArchDesc, PyVal.str kNotAvailable),
      (kWhatItDoes, PyVal.str kNotAvailable),
      (kRecruiter, PyVal.str kNotAvailable) ]

theorem c9_witness :
    parse_analysis c9Input = .ok c9Output ∧
    ∃ m' v, c9Output = PyVal.dict m' ∧ assocGet m' kMermaid = some (PyVal.str v) ∧
      (v = [] ∨ pyStartsWith v kGraph = true) :=
  ⟨rfl, c9_mermaid_invariant c9Input [(kMermaid, PyVal.str ("A-->B".data))] c9Output rfl
    (Or.inr ⟨"A-->B".data, rfl⟩) rfl⟩

/-- C10: the pattern is searched, not anchored — an input that merely
contains `github.com/<owner>/<repo>` inside surrounding text yields that
first occurrence's owner and repository, not (absent, absent). -/
theorem c10_search_inside (pre owner repo post : List Char)
    (hnorm : pyRstripSlashes (pyStrip (pre ++ (ghLit ++ (owner ++ '/' :: (repo ++ post))))) =
      pre ++ (ghLit ++ (owner ++ '/' :: (repo ++ post))))
    (hpre : ∀ i, i < pre.length →
      ghMatchAt ((pre ++ (ghLit ++ (owner ++ '/' :: (repo ++ post)))).drop i) = none)
    (ho1 : ¬ owner = []) (ho2 : ∀ c ∈ owner, ¬ c = '/')
    (hr1 : ¬ repo = []) (hr2 : ∀ c ∈ repo, ghStop c = false)
    (hpost : post = [] ∨ ∃ c t, post = c :: t ∧ ghStop c = true)
    (hgit : pyReplace repo (".git".data) [] = repo) :
    extract_repo_info (pre ++ (ghLit ++ (owner ++ '/' :: (repo ++ post)))) =
      (some owner, some repo) := by
  have hsearch := ghSearch_url pre owner repo post hpre ho1 ho2 hr1 hr2 hpost
  simp only [extract_repo_info, hnorm, hsearch, hgit]

theorem c10_witness :
    extract_repo_info
        ("see https://github.com/alpha/beta and https://github.com/c/d".data) =
      (some ("alpha".data), some ("beta".data)) := by
  have h := c10_search_inside ("see https://".data) ("alpha".data) ("beta".data)
    (" and https://github.com/c/d".data) (by decide) (by decide) (by decide) (by decide)
    (by decide) (by decide)
    (Or.inr ⟨' ', "and https://github.com/c/d".data, rfl, by decide⟩) (by decide)
  rw [show ("see https://github.com/alpha/beta and https://github.com/c/d".data : List Char) =
    "see https://".data ++ (ghLit ++ ("alpha".data ++ '/' ::
      ("beta".data ++ " and https://github.com/c/d".data))) from by decide]
  exact h
